import Mathlib

/-!
Verification of the SPV verification engine (`lib.rs`): a shallow embedding
of the Rust core with byte strings as `List Nat` (each entry one byte) and
Rust string slices as Lean `String`.  Machine arithmetic that can wrap
(`usize` cursor arithmetic, `u32` accumulators) is modelled with explicit
`% 2^w`.  External crate primitives used by the core (`sha2`, `hex`,
`bech32`, `bs58`) are modelled from their standard algorithms, which the
specification describes in sections 4.1-4.5.
-/

set_option maxRecDepth 8000

/-! ## Hex codec (model of the `hex` crate, spec section 4.2) -/

/-- Hex digit value of a character, both cases accepted (`hex::decode`). -/
def hexVal (c : Char) : Option Nat :=
  if 48 ≤ c.toNat ∧ c.toNat ≤ 57 then some (c.toNat - 48)
  else if 97 ≤ c.toNat ∧ c.toNat ≤ 102 then some (c.toNat - 87)
  else if 65 ≤ c.toNat ∧ c.toNat ≤ 70 then some (c.toNat - 55)
  else none

/-- Lowercase hex digit character for a value below 16 (`hex::encode`). -/
def hexChar (d : Nat) : Char :=
  if d < 10 then Char.ofNat (48 + d) else Char.ofNat (87 + d)

/-- Hex-decode a character list two digits at a time; odd length or a
non-digit is a failure, as in `hex::decode`. -/
def hexDecodeL : List Char → Option (List Nat)
  | [] => some []
  | [_] => none
  | c1 :: c2 :: rest =>
    match hexVal c1, hexVal c2, hexDecodeL rest with
    | some hi, some lo, some bs => some ((16 * hi + lo) :: bs)
    | _, _, _ => none

/-- Hex-encode a byte list, two lowercase digits per byte (`hex::encode`). -/
def hexEncodeL : List Nat → List Char
  | [] => []
  | b :: rest => hexChar (b / 16) :: hexChar (b % 16) :: hexEncodeL rest

def hexDecode (s : String) : Option (List Nat) := hexDecodeL s.data

def hexEncode (l : List Nat) : String := String.mk (hexEncodeL l)

/-! ## SHA-256 (model of the `sha2` crate, FIPS 180-4; spec section 4.1) -/

def add32 (a b : Nat) : Nat := (a + b) % 4294967296

def rotr32 (n x : Nat) : Nat := ((x >>> n) ||| (x <<< (32 - n))) % 4294967296

def shaCh (x y z : Nat) : Nat := (x &&& y) ^^^ ((x ^^^ 4294967295) &&& z)

def shaMaj (x y z : Nat) : Nat := (x &&& y) ^^^ (x &&& z) ^^^ (y &&& z)

def bsig0 (x : Nat) : Nat := rotr32 2 x ^^^ rotr32 13 x ^^^ rotr32 22 x

def bsig1 (x : Nat) : Nat := rotr32 6 x ^^^ rotr32 11 x ^^^ rotr32 25 x

def ssig0 (x : Nat) : Nat := rotr32 7 x ^^^ rotr32 18 x ^^^ (x >>> 3)

def ssig1 (x : Nat) : Nat := rotr32 17 x ^^^ rotr32 19 x ^^^ (x >>> 10)

/-- The 64 SHA-256 round constants. -/
def shaK : List Nat :=
  [1116352408, 1899447441, 3049323471, 3921009573, 961987163, 1508970993,
   2453635748, 2870763221, 3624381080, 310598401, 607225278, 1426881987,
   1925078388, 2162078206, 2614888103, 3248222580, 3835390401, 4022224774,
   264347078, 604807628, 770255983, 1249150122, 1555081692, 1996064986,
   2554220882, 2821834349, 2952996808, 3210313671, 3336571891, 3584528711,
   113926993, 338241895, 666307205, 773529912, 1294757372, 1396182291,
   1695183700, 1986661051, 2177026350, 2456956037, 2730485921, 2820302411,
   3259730800, 3345764771, 3516065817, 3600352804, 4094571909, 275423344,
   430227734, 506948616, 659060556, 883997877, 958139571, 1322822218,
   1537002063, 1747873779, 1955562222, 2024104815, 2227730452, 2361852424,
   2428436474, 2756734187, 3204031479, 3329325298]

/-- The eight 32-bit words of the SHA-256 internal state. -/
structure H8 where
  a : Nat
  b : Nat
  c : Nat
  d : Nat
  e : Nat
  f : Nat
  g : Nat
  h : Nat
deriving DecidableEq, Repr

def shaH0 : H8 :=
  ⟨1779033703, 3144134277, 1013904242, 2773480762,
   1359893119, 2600822924, 528734635, 1541459225⟩

/-- Big-endian 32-bit word from up to four bytes. -/
def beWord4 (l : List Nat) : Nat := l.foldl (fun a b => a * 256 + b) 0

/-- Split a 64-byte block into sixteen big-endian words (fuel-driven). -/
def toWords16 : Nat → List Nat → List Nat
  | 0, _ => []
  | k + 1, l => if l = [] then [] else beWord4 (l.take 4) :: toWords16 k (l.drop 4)

/-- Extend the message schedule by one word. -/
def stepW (cur : List Nat) : List Nat :=
  let n := cur.length
  cur ++ [add32 (add32 (ssig1 (cur.getD (n - 2) 0)) (cur.getD (n - 7) 0))
          (add32 (ssig0 (cur.getD (n - 15) 0)) (cur.getD (n - 16) 0))]

/-- Extend the message schedule `k` times (from 16 to 64 words). -/
def buildW : Nat → List Nat → List Nat
  | 0, cur => cur
  | k + 1, cur => buildW k (stepW cur)

/-- One SHA-256 round, consuming one `(constant, scheduled word)` pair. -/
def compressStep (st : H8) (kw : Nat × Nat) : H8 :=
  let t1 := add32 st.h (add32 (bsig1 st.e) (add32 (shaCh st.e st.f st.g) (add32 kw.1 kw.2)))
  let t2 := add32 (bsig0 st.a) (shaMaj st.a st.b st.c)
  ⟨add32 t1 t2, st.a, st.b, st.c, add32 st.d t1, st.e, st.f, st.g⟩

/-- Compress one 64-byte block into the running state. -/
def compressBlock (st : H8) (block : List Nat) : H8 :=
  let w := buildW 48 (toWords16 16 block)
  let f := (shaK.zip w).foldl compressStep st
  ⟨add32 st.a f.a, add32 st.b f.b, add32 st.c f.c, add32 st.d f.d,
   add32 st.e f.e, add32 st.f f.f, add32 st.g f.g, add32 st.h f.h⟩

/-- Eight big-endian bytes of a 64-bit length field. -/
def be64 (n : Nat) : List Nat :=
  [(n >>> 56) &&& 255, (n >>> 48) &&& 255, (n >>> 40) &&& 255, (n >>> 32) &&& 255,
   (n >>> 24) &&& 255, (n >>> 16) &&& 255, (n >>> 8) &&& 255, n &&& 255]

/-- Four big-endian bytes of a 32-bit state word. -/
def be32bytes (x : Nat) : List Nat :=
  [(x >>> 24) &&& 255, (x >>> 16) &&& 255, (x >>> 8) &&& 255, x &&& 255]

/-- FIPS 180-4 padding: `0x80`, zeros to 56 mod 64, then the bit length. -/
def shaPad (msg : List Nat) : List Nat :=
  let padLen := (64 - ((msg.length + 9) % 64)) % 64
  msg ++ 128 :: (List.replicate padLen 0 ++ be64 (8 * msg.length))

/-- Split a padded message into 64-byte blocks (fuel-driven). -/
def chunks64 : Nat → List Nat → List (List Nat)
  | 0, _ => []
  | k + 1, l => if l = [] then [] else l.take 64 :: chunks64 k (l.drop 64)

/-- SHA-256 of a byte string. -/
def sha256 (msg : List Nat) : List Nat :=
  let padded := shaPad msg
  let st := (chunks64 padded.length padded).foldl compressBlock shaH0
  be32bytes st.a ++ be32bytes st.b ++ be32bytes st.c ++ be32bytes st.d ++
  be32bytes st.e ++ be32bytes st.f ++ be32bytes st.g ++ be32bytes st.h

/-- Double SHA-256 (`sha256d` in `lib.rs`). -/
def sha256d (data : List Nat) : List Nat := sha256 (sha256 data)

/-! ## Byte-order codec and txid check (`lib.rs` lines 11-42) -/

/-- `hex::encode` of the byte-reversed hash: internal form to explorer
display form, as done inline at `lib.rs` lines 168-170. -/
def to_display (a : List Nat) : String := hexEncode a.reverse

/-- Convert a hex sibling (explorer display) to internal big-endian bytes
(`hex_sibling_to_internal`). -/
def hex_sibling_to_internal (s : String) : Except String (List Nat) :=
  match hexDecode s with
  | none => .error "hex decode sibling"
  | some bytes =>
    if bytes.length ≠ 32 then .error "sibling len != 32"
    else .ok bytes.reverse

/-- Compute raw internal tx hash by double-sha256 over the decoded tx bytes
(`compute_raw_tx_hash_from_txhex`). -/
def compute_raw_tx_hash_from_txhex (txHex : String) : Except String (List Nat) :=
  match hexDecode txHex with
  | none => .error "tx hex decode"
  | some txBytes => .ok (sha256d txBytes)

/-- Verify the expected explorer txid (little-endian hex) matches the
computed tx hash (`verify_txid`). -/
def verify_txid (expectedTxidHex txHex : String) : Except String Bool :=
  match hexDecode expectedTxidHex with
  | none => .error "expected txid hex decode"
  | some expectedBytes =>
    if expectedBytes.length ≠ 32 then .error "expected txid len != 32"
    else
      match compute_raw_tx_hash_from_txhex txHex with
      | .error e => .error e
      | .ok computed => .ok (computed == expectedBytes.reverse)

/-! ## Merkle verifier (`lib.rs` lines 44-82) -/

/-- Verify merkle inclusion: fold the ordered siblings into the leaf, pairing
by position parity, and compare with the root (`verify_merkle_inclusion`). -/
def verify_merkle_inclusion (leafInternal : List Nat) (siblings : List (List Nat))
    (pos : Nat) (merkleRootInternal : List Nat) : Bool :=
  match siblings with
  | [] => leafInternal == merkleRootInternal
  | sibling :: rest =>
    let buf := if pos % 2 == 0 then leafInternal ++ sibling else sibling ++ leafInternal
    verify_merkle_inclusion (sha256d buf) rest (pos >>> 1) merkleRootInternal

/-- Wrapper around `verify_merkle_inclusion` (`verify_merkle_proof`). -/
def verify_merkle_proof (txHash : List Nat) (merkleSiblings : List (List Nat))
    (pos : Nat) (merkleRoot : List Nat) : Bool :=
  verify_merkle_inclusion txHash merkleSiblings pos merkleRoot

/-- The Merkle path recomputation exactly as section 4.7 of the spec words
it: for each sibling in list order, concatenate current-then-sibling when the
current position is even and sibling-then-current when odd, hash the
concatenation with sha256d, and halve the position by integer division. -/
def merkleFoldSpec (current : List Nat) (siblings : List (List Nat)) (pos : Nat) : List Nat :=
  match siblings with
  | [] => current
  | sibling :: rest =>
    merkleFoldSpec (sha256d (if pos % 2 = 0 then current ++ sibling else sibling ++ current))
      rest (pos / 2)

/-! ## Varint codec (`parse_varint`, `lib.rs` lines 255-287) -/

/-- Little-endian value of a byte list (first byte least significant). -/
def leVal (l : List Nat) : Nat := l.foldr (fun b acc => b + 256 * acc) 0

/-- Parse Bitcoin's compact-size integer; returns `(value, consumed)`
(`parse_varint`). -/
def parse_varint (data : List Nat) : Except String (Nat × Nat) :=
  match data with
  | [] => .error "empty varint"
  | b0 :: rest =>
    if b0 = 0xfd then
      if data.length < 3 then .error "varint too short for 0xfd"
      else .ok (leVal (rest.take 2), 3)
    else if b0 = 0xfe then
      if data.length < 5 then .error "varint too short for 0xfe"
      else .ok (leVal (rest.take 4), 5)
    else if b0 = 0xff then
      if data.length < 9 then .error "varint too short for 0xff"
      else .ok (leVal (rest.take 8), 9)
    else .ok (b0, 1)

/-! ## Bech32 (model of the `bech32` crate, BIP-173; spec section 4.5) -/

/-- Does `s` start with `p`?  Model of Rust's `str::starts_with`. -/
def startsWithS (s p : String) : Bool := p.data.isPrefixOf s.data

/-- The bech32 checksum generator constants. -/
def bech32Gen : List Nat := [0x3b6a57b2, 0x26508e6d, 0x1ea119fa, 0x3d4233dd, 0x2a1462b3]

/-- One step of the bech32 BCH checksum: shift in one 5-bit value. -/
def polymodStep (chk v : Nat) : Nat :=
  let b := chk >>> 25
  (List.range 5).foldl
    (fun c i => if (b >>> i) &&& 1 == 1 then c ^^^ bech32Gen.getD i 0 else c)
    (((chk &&& 0x1ffffff) <<< 5) ^^^ v)

/-- The bech32 checksum polynomial of a 5-bit value sequence. -/
def bech32_polymod (values : List Nat) : Nat := values.foldl polymodStep 1

/-- Expand a human-readable part for checksum computation: high bits of each
character, a zero, then low bits of each character. -/
def bech32_hrp_expand_l (hrp : List Char) : List Nat :=
  hrp.map (fun c => c.toNat >>> 5) ++ 0 :: hrp.map (fun c => c.toNat &&& 31)

/-- The 32-character bech32 data alphabet. -/
def bech32Charset : List Char := "qpzry9x8gf2tvdw0s3jn54khce6mua7l".data

/-- Character for a 5-bit value. -/
def bech32CharsetChar (v : Nat) : Char := bech32Charset.getD v 'q'

/-- 5-bit value of a data character, if any. -/
def bech32CharsetRev (c : Char) : Option Nat := bech32Charset.findIdx? (fun x => x = c)

/-- Checksum for the Bech32 (not Bech32m) variant, whose constant is 1. -/
def bech32_create_checksum (hrp : List Char) (data : List Nat) : List Nat :=
  let plm := bech32_polymod (bech32_hrp_expand_l hrp ++ (data ++ [0, 0, 0, 0, 0, 0])) ^^^ 1
  (List.range 6).map (fun i => (plm >>> (5 * (5 - i))) &&& 31)

/-- `bech32::encode` with the Bech32 variant: human-readable part, the `'1'`
separator, then data and checksum through the alphabet. -/
def bech32_encode (hrp : String) (data : List Nat) : String :=
  String.mk (hrp.data ++ '1' :: (data ++ bech32_create_checksum hrp.data data).map bech32CharsetChar)

/-- Index of the last `'1'` in a character list (Rust `str::rfind`). -/
def rfind1 : List Char → Option Nat
  | [] => none
  | c :: cs =>
    match rfind1 cs with
    | some i => some (i + 1)
    | none => if c = '1' then some 0 else none

/-- Lowercase an ASCII uppercase letter, leave anything else alone. -/
def lowerChar (c : Char) : Char :=
  if 65 ≤ c.toNat ∧ c.toNat ≤ 90 then Char.ofNat (c.toNat + 32) else c

/-- Map data characters to their 5-bit values, failing on a foreign one. -/
def bech32ToU5s : List Char → Option (List Nat)
  | [] => some []
  | c :: cs =>
    match bech32CharsetRev c, bech32ToU5s cs with
    | some v, some vs => some (v :: vs)
    | _, _ => none

inductive Bech32Variant where
  | bech32
  | bech32m
deriving DecidableEq, Repr

/-- `bech32::decode`: reject mixed case, split at the last `'1'`, validate the
human-readable part, require at least the 6 checksum characters, map data
characters through the alphabet, and classify the checksum variant. -/
def bech32_decode (s : String) : Except String (String × List Nat × Bech32Variant) :=
  let cs := s.data
  let hasUpper := cs.any (fun c => decide (65 ≤ c.toNat ∧ c.toNat ≤ 90))
  let hasLower := cs.any (fun c => decide (97 ≤ c.toNat ∧ c.toNat ≤ 122))
  if hasUpper && hasLower then .error "mixed-case strings not allowed"
  else
    let ls := cs.map lowerChar
    match rfind1 ls with
    | none => .error "missing human-readable separator"
    | some i =>
      let hrp := ls.take i
      let dataChars := ls.drop (i + 1)
      if hrp.length = 0 then .error "invalid length"
      else if !hrp.all (fun c => decide (33 ≤ c.toNat ∧ c.toNat ≤ 126)) then
        .error "invalid character"
      else if dataChars.length < 6 then .error "invalid length"
      else
        match bech32ToU5s dataChars with
        | none => .error "invalid character"
        | some values =>
          let plm := bech32_polymod (bech32_hrp_expand_l hrp ++ values)
          if plm = 1 then .ok (String.mk hrp, values.take (values.length - 6), .bech32)
          else if plm = 0x2bc830a3 then
            .ok (String.mk hrp, values.take (values.length - 6), .bech32m)
          else .error "invalid checksum"

/-- `bech32::convert_bits`: regroup a value stream between bit widths through
a `u32` accumulator, optionally padding the tail. -/
def convert_bits (data : List Nat) (frombits tobits : Nat) (pad : Bool) :
    Except String (List Nat) :=
  let maxv := (1 <<< tobits) - 1
  match cbLoop data 0 0 with
  | none => .error "invalid data"
  | some (ret, acc, bits) =>
    if pad then
      if bits > 0 then .ok (ret ++ [((acc <<< (tobits - bits)) % 4294967296) &&& maxv])
      else .ok ret
    else if bits ≥ frombits ∨ ((acc <<< (tobits - bits)) % 4294967296) &&& maxv ≠ 0 then
      .error "invalid padding"
    else .ok ret
where
  /-- Emit as many `tobits`-wide values from the accumulator as fit. -/
  cbEmit : Nat → Nat → Nat → (List Nat × Nat)
    | 0, _, bits => ([], bits)
    | fuel + 1, acc, bits =>
      if tobits ≤ bits then
        let bits' := bits - tobits
        let r := cbEmit fuel acc bits'
        (((acc >>> bits') &&& ((1 <<< tobits) - 1)) :: r.1, r.2)
      else ([], bits)
  /-- Absorb each input value into the accumulator, emitting after each. -/
  cbLoop : List Nat → Nat → Nat → Option (List Nat × Nat × Nat)
    | [], acc, bits => some ([], acc, bits)
    | v :: rest, acc, bits =>
      if v >>> frombits ≠ 0 then none
      else
        let acc' := ((acc <<< frombits) ||| v) % 4294967296
        let e := cbEmit (bits + frombits) acc' (bits + frombits)
        match cbLoop rest acc' e.2 with
        | none => none
        | some (out, accf, bitsf) => some (e.1 ++ out, accf, bitsf)

deriving instance DecidableEq for Except

/-! ## Address codec (`lib.rs` lines 84-108, 289-343) -/

/-- The base58 alphabet (model of the `bs58` crate). -/
def b58Alphabet : List Char := "123456789ABCDEFGHJKLMNPQRSTUVWXYZabcdefghijkmnopqrstuvwxyz".data

/-- Base-58 digits of `n`, least significant first (fuel-driven). -/
def b58digits : Nat → Nat → List Nat
  | 0, _ => []
  | fuel + 1, n => if n = 0 then [] else n % 58 :: b58digits fuel (n / 58)

/-- `bs58::encode`: one `'1'` per leading zero byte, then the base-58 digits
of the big-endian value. -/
def bs58_encode (bytes : List Nat) : String :=
  let zeros := (bytes.takeWhile (fun b => b = 0)).length
  let n := bytes.foldl (fun a b => a * 256 + b) 0
  String.mk (List.replicate zeros '1' ++
    ((b58digits n n).reverse.map (fun d => b58Alphabet.getD d '1')))

/-- Extract a P2PKH address from a 25-byte `76a914<20>88ac` script
(`extract_p2pkh_address`). -/
def extract_p2pkh_address (script : List Nat) : Except String String :=
  if script.length ≠ 25 ∨ script.getD 0 0 ≠ 0x76 ∨ script.getD 1 0 ≠ 0xa9 ∨
      script.getD 2 0 ≠ 0x14 ∨ script.getD 23 0 ≠ 0x88 ∨ script.getD 24 0 ≠ 0xac then
    .error "not a P2PKH script"
  else
    let addressBytes := 0 :: (script.drop 3).take 20
    .ok (bs58_encode (addressBytes ++ (sha256d addressBytes).take 4))

/-- Extract a P2WPKH address from a 22-byte `0014<20>` script, re-encoded
with human-readable part `"bc"` (`extract_p2wpkh_address`). -/
def extract_p2wpkh_address (script : List Nat) : Except String String :=
  if script.length ≠ 22 ∨ script.getD 0 0 ≠ 0x00 ∨ script.getD 1 0 ≠ 0x14 then
    .error "not a P2WPKH script"
  else
    match convert_bits ((script.drop 2).take 20) 8 5 true with
    | .error _ => .error "convert_bits failed for P2WPKH"
    | .ok converted => .ok (bech32_encode "bc" (0 :: converted))

/-- Decode a bech32 P2WPKH (v0) address to its 20-byte pubkey hash
(`decode_bech32_pubkey_hash`). -/
def decode_bech32_pubkey_hash (address : String) : Except String (List Nat) :=
  match bech32_decode address with
  | .error e => .error ("bech32 decode: " ++ e)
  | .ok (hrp, data, variant) =>
    if hrp ≠ "bc" ∧ hrp ≠ "tb" then .error ("unexpected hrp: " ++ hrp)
    else if variant ≠ .bech32 then .error "expected Bech32 variant"
    else if data.length = 0 then .error "bech32 data empty"
    else if data.getD 0 0 ≠ 0 then .error "non-zero witness version"
    else
      match convert_bits (data.drop 1) 5 8 false with
      | .error _ => .error "convert_bits failed"
      | .ok converted =>
        if converted.length ≠ 20 then
          .error ("expected 20 bytes, got " ++ toString converted.length)
        else .ok converted

/-! ## Payment aggregator (`lib.rs` lines 110-156) -/

/-- `u64::checked_add`. -/
def checkedAdd (a b : Nat) : Option Nat :=
  if a + b < 18446744073709551616 then some (a + b) else none

/-- The summation loop of `sum_outputs_to_target_legacy`, carrying the
running total and the matched flag. -/
def sumLoopLegacy (target : String) : List (String × Nat) → Nat → Bool → Except String Nat
  | [], total, matched => if !matched then .error "no outputs to target" else .ok total
  | (addr, val) :: rest, total, matched =>
    if addr == target then
      match checkedAdd total val with
      | some t => sumLoopLegacy target rest t true
      | none => .error "overflow adding outputs"
    else sumLoopLegacy target rest total matched

/-- Sum outputs paid to a legacy target address by exact string matching
(`sum_outputs_to_target_legacy`). -/
def sum_outputs_to_target_legacy (parsedOutputs : List (String × Nat)) (targetAddress : String) :
    Except String Nat :=
  sumLoopLegacy targetAddress parsedOutputs 0 false

/-- The summation loop of `sum_outputs_to_target`: an output counts when its
address decodes to the same pubkey hash as the target. -/
def sumLoopBech (targetHash : List Nat) : List (String × Nat) → Nat → Bool → Except String Nat
  | [], total, matched => if !matched then .error "no outputs to target" else .ok total
  | (addr, val) :: rest, total, matched =>
    match decode_bech32_pubkey_hash addr with
    | .ok h =>
      if h = targetHash then
        match checkedAdd total val with
        | some t => sumLoopBech targetHash rest t true
        | none => .error "overflow adding outputs"
      else sumLoopBech targetHash rest total matched
    | .error _ => sumLoopBech targetHash rest total matched

/-- Sum outputs paid to the target address (`sum_outputs_to_target`): a
`bc1`/`tb1`-looking target must bech32-decode, anything else falls back to
legacy string matching. -/
def sum_outputs_to_target (parsedOutputs : List (String × Nat)) (targetAddress : String) :
    Except String Nat :=
  if startsWithS targetAddress "bc1" || startsWithS targetAddress "tb1" then
    match decode_bech32_pubkey_hash targetAddress with
    | .error e => .error e
    | .ok targetHash => sumLoopBech targetHash parsedOutputs 0 false
  else sum_outputs_to_target_legacy parsedOutputs targetAddress

/-! ## Transaction parser (`parse_tx_outputs`, `lib.rs` lines 173-253)

Rust `usize` cursor arithmetic wraps in release builds, so every cursor
update and bounds-check sum is taken `% 2^64`; a Rust slice `&b[a..c]`
panics when `a > c`, which the `RustResult.panic` outcome records. -/

/-- Outcome of a Rust function that can also panic. -/
inductive RustResult (α : Type) where
  | ok (val : α)
  | err (msg : String)
  | panic
deriving DecidableEq, Repr

def RustResult.map {α β : Type} (f : α → β) : RustResult α → RustResult β
  | .ok v => .ok (f v)
  | .err e => .err e
  | .panic => .panic

/-- `usize` modulus (64-bit target). -/
def uszMod : Nat := 18446744073709551616

/-- A parsed output as section 3 of the spec has it: the satoshi value and
the optionally recognized address. -/
structure ParsedOutput where
  value : Nat
  recognizedAddress : Option String
deriving DecidableEq, Repr

/-- Script classification as section 4.4.1 of the spec words it: a P2PKH or
P2WPKH pattern yields its address, any other shape is `none`, not an error. -/
def recognizeScript (script : List Nat) : Option String :=
  match extract_p2pkh_address script with
  | .ok address => some address
  | .error _ =>
    match extract_p2wpkh_address script with
    | .ok address => some address
    | .error _ => none

/-- The input-skipping loop of `parse_tx_outputs` (lines 199-215): skip the
36-byte outpoint, the varint-prefixed script, and the 4-byte sequence. -/
def skipInputs (bytes : List Nat) : Nat → Nat → RustResult Nat
  | 0, cursor => .ok cursor
  | n + 1, cursor =>
    if (cursor + 36) % uszMod > bytes.length then .err "tx too short for input"
    else
      let c1 := (cursor + 36) % uszMod
      match parse_varint (bytes.drop c1) with
      | .error e => .err e
      | .ok (scriptLen, scriptLenLen) =>
        let c2 := (c1 + scriptLenLen) % uszMod
        if (c2 + scriptLen + 4) % uszMod > bytes.length then .err "tx too short for input script"
        else skipInputs bytes n ((c2 + scriptLen + 4) % uszMod)

/-- The output loop of `parse_tx_outputs` (lines 224-250): read the 8-byte
little-endian value and the varint-prefixed script, keep the output only when
its script is recognized. -/
def outputsLoopI (bytes : List Nat) : Nat → Nat → RustResult (List (String × Nat))
  | 0, _ => .ok []
  | n + 1, cursor =>
    if (cursor + 8) % uszMod > bytes.length then .err "tx too short for output value"
    else
      let e8 := (cursor + 8) % uszMod
      if cursor > e8 then .panic
      else
        let value := leVal ((bytes.drop cursor).take (e8 - cursor))
        match parse_varint (bytes.drop e8) with
        | .error e => .err e
        | .ok (scriptLen, scriptLenLen) =>
          let c2 := (e8 + scriptLenLen) % uszMod
          let e2 := (c2 + scriptLen) % uszMod
          if e2 > bytes.length then .err "tx too short for output script"
          else if c2 > e2 then .panic
          else
            let script := (bytes.drop c2).take (e2 - c2)
            match outputsLoopI bytes n e2 with
            | .ok rest =>
              match extract_p2pkh_address script with
              | .ok address => .ok ((address, value) :: rest)
              | .error _ =>
                match extract_p2wpkh_address script with
                | .ok address => .ok ((address, value) :: rest)
                | .error _ => .ok rest
            | .err e => .err e
            | .panic => .panic

/-- The output loop as the spec words it (section 4.4 step 4): append a
`ParsedOutput` for *every* serialized output, recognized or not. -/
def outputsLoopA (bytes : List Nat) : Nat → Nat → RustResult (List ParsedOutput)
  | 0, _ => .ok []
  | n + 1, cursor =>
    if (cursor + 8) % uszMod > bytes.length then .err "tx too short for output value"
    else
      let e8 := (cursor + 8) % uszMod
      if cursor > e8 then .panic
      else
        let value := leVal ((bytes.drop cursor).take (e8 - cursor))
        match parse_varint (bytes.drop e8) with
        | .error e => .err e
        | .ok (scriptLen, scriptLenLen) =>
          let c2 := (e8 + scriptLenLen) % uszMod
          let e2 := (c2 + scriptLen) % uszMod
          if e2 > bytes.length then .err "tx too short for output script"
          else if c2 > e2 then .panic
          else
            let script := (bytes.drop c2).take (e2 - c2)
            match outputsLoopA bytes n e2 with
            | .ok rest => .ok (⟨value, recognizeScript script⟩ :: rest)
            | .err e => .err e
            | .panic => .panic

/-- The front half of `parse_tx_outputs` (lines 176-219): hex-decode, skip
the version, detect segwit marker bytes, skip the inputs, and read the
output count.  Returns the bytes, the output count, and the cursor. -/
def parseOutputsSetup (txHex : String) : RustResult (List Nat × Nat × Nat) :=
  match hexDecode txHex with
  | none => .err "tx hex decode"
  | some bytes =>
    if bytes.length < 4 then .err "tx too short for version"
    else
      let isSegwit := decide (bytes.length > 4) && (bytes.getD 4 0 == 0x00) &&
        decide (bytes.length > 5) && (bytes.getD 5 0 == 0x01)
      let cursor := if isSegwit then 6 else 4
      match parse_varint (bytes.drop cursor) with
      | .error e => .err e
      | .ok (inputCount, inputCountLen) =>
        match skipInputs bytes inputCount ((cursor + inputCountLen) % uszMod) with
        | .err e => .err e
        | .panic => .panic
        | .ok c2 =>
          match parse_varint (bytes.drop c2) with
          | .error e => .err e
          | .ok (outputCount, outputCountLen) =>
            .ok (bytes, outputCount, (c2 + outputCountLen) % uszMod)

/-- Parse transaction outputs from transaction hex (`parse_tx_outputs`):
a vector of `(address, value)` pairs for the recognized outputs. -/
def parse_tx_outputs (txHex : String) : RustResult (List (String × Nat)) :=
  match parseOutputsSetup txHex with
  | .ok (bytes, outputCount, cursor) => outputsLoopI bytes outputCount cursor
  | .err e => .err e
  | .panic => .panic

/-- The parser as the spec words it: same walk, but every serialized output
is retained as a `ParsedOutput`. -/
def parse_tx_outputs_all (txHex : String) : RustResult (List ParsedOutput) :=
  match parseOutputsSetup txHex with
  | .ok (bytes, outputCount, cursor) => outputsLoopA bytes outputCount cursor
  | .err e => .err e
  | .panic => .panic

/-! ## Block header reader and orchestrator (`lib.rs` lines 158-171, 345-391) -/

/-- Extract the merkle root (internal order, bytes 36..68) and the display
block hash from the 80-byte header (`block_header_merkle_root_and_block_hash`). -/
def block_header_merkle_root_and_block_hash (headerHex : String) :
    Except String (List Nat × String) :=
  match hexDecode headerHex with
  | none => .error "header hex decode"
  | some headerBytes =>
    if headerBytes.length ≠ 80 then .error "block header must be 80 bytes"
    else .ok ((headerBytes.drop 36).take 32, to_display (sha256d headerBytes))

/-- Convert each sibling hex string to internal order (loop at lines 364-367). -/
def sibs_to_internal : List String → Except String (List (List Nat))
  | [] => .ok []
  | s :: rest =>
    match hex_sibling_to_internal s with
    | .error e => .error e
    | .ok a =>
      match sibs_to_internal rest with
      | .error e => .error e
      | .ok l => .ok (a :: l)

/-- Combined verification (`verify_tx_in_block_and_outputs`): txid check,
sibling conversion, header read, merkle inclusion, output parse, payment sum;
short-circuiting to the first error. -/
def verify_tx_in_block_and_outputs (txHex expectedTxidHex : String)
    (merkleHexSiblings : List String) (pos : Nat) (blockHeaderHex targetAddress : String) :
    RustResult (String × Nat) :=
  match verify_txid expectedTxidHex txHex with
  | .error e => .err e
  | .ok okTxid =>
    if !okTxid then .err "txid mismatch"
    else
      match compute_raw_tx_hash_from_txhex txHex with
      | .error e => .err e
      | .ok leafInternal =>
        match sibs_to_internal merkleHexSiblings with
        | .error e => .err e
        | .ok siblingsInternal =>
          match block_header_merkle_root_and_block_hash blockHeaderHex with
          | .error e => .err e
          | .ok (merkleRootInternal, blockHashDisp) =>
            if !verify_merkle_inclusion leafInternal siblingsInternal pos merkleRootInternal then
              .err "merkle inclusion failed"
            else
              match parse_tx_outputs txHex with
              | .err e => .err e
              | .panic => .panic
              | .ok actualOutputs =>
                match sum_outputs_to_target actualOutputs targetAddress with
                | .error e => .err e
                | .ok total => .ok (blockHashDisp, total)

/-! ## Definitions used by theorem statements -/

/-- Project a spec-side `ParsedOutput` to the implementation's pair, when
its script was recognized. -/
def recognizedPair (o : ParsedOutput) : Option (String × Nat) :=
  o.recognizedAddress.map (fun a => (a, o.value))

/-- Lower-case an uppercase hex digit character, leave others alone. -/
def lowerHex (c : Char) : Char :=
  if 65 ≤ c.toNat ∧ c.toNat ≤ 70 then Char.ofNat (c.toNat + 32) else c

/-- Bits-to-big-number value in an arbitrary base. -/
def digitsVal (base : Nat) (l : List Nat) : Nat := l.foldl (fun a d => a * base + d) 0

/-- The xor of the bech32 generator constants selected by the low five bits
of `b` — closed form of the inner loop of `polymodStep`. -/
def bech32GenSel (b : Nat) : Nat :=
  (if (b >>> 0) &&& 1 == 1 then 0x3b6a57b2 else 0) ^^^
  ((if (b >>> 1) &&& 1 == 1 then 0x26508e6d else 0) ^^^
   ((if (b >>> 2) &&& 1 == 1 then 0x1ea119fa else 0) ^^^
    ((if (b >>> 3) &&& 1 == 1 then 0x3d4233dd else 0) ^^^
     (if (b >>> 4) &&& 1 == 1 then 0x2a1462b3 else 0))))

/-! # Theorems -/

/-! ## C2: the Merkle verifier -/

theorem verify_merkle_eq_fold (sibs : List (List Nat)) : ∀ leaf pos root,
    verify_merkle_inclusion leaf sibs pos root = (merkleFoldSpec leaf sibs pos == root) := by
  induction sibs with
  | nil => intro leaf pos root; rfl
  | cons s rest ih =>
    intro leaf pos root
    rw [verify_merkle_inclusion, merkleFoldSpec]
    have hdiv : pos >>> 1 = pos / 2 := by
      simpa using Nat.shiftRight_eq_div_pow pos 1
    by_cases h : pos % 2 = 0
    · simp only [h, beq_self_eq_true, if_pos, ih, hdiv, if_true]
    · have : (pos % 2 == 0) = false := by simpa using h
      simp only [this, if_neg, ih, hdiv, Bool.false_eq_true, if_false, h]

/-- C2: Merkle verification returns true iff folding the siblings in list
order — current-then-sibling at even positions, sibling-then-current at odd,
sha256d, halving the position — yields the expected root; for an empty
sibling list it returns true exactly when the leaf equals the root. -/
theorem c2_merkle_verification_iff_fold :
    (∀ leaf sibs pos root,
      verify_merkle_proof leaf sibs pos root = true ↔ merkleFoldSpec leaf sibs pos = root) ∧
    (∀ leaf pos root, verify_merkle_proof leaf [] pos root = true ↔ leaf = root) := by
  constructor
  · intro leaf sibs pos root
    rw [verify_merkle_proof, verify_merkle_eq_fold]
    exact beq_iff_eq
  · intro leaf pos root
    rw [verify_merkle_proof, verify_merkle_eq_fold]
    simp [merkleFoldSpec]

/-! ## C7: the varint codec -/

/-- C7: compact-size decoding by first byte: below 0xfd the byte itself with
length 1; 0xfd, 0xfe, 0xff read 2-, 4-, 8-byte little-endian values with
lengths 3, 5, 9; and a truncation error exactly when the slice is empty or
shorter than the indicated width. -/
theorem c7_parse_varint_cases :
    (∀ b rest, b < 0xfd → parse_varint (b :: rest) = .ok (b, 1)) ∧
    (∀ b1 b2 rest, parse_varint (0xfd :: b1 :: b2 :: rest) = .ok (b1 + 256 * b2, 3)) ∧
    (∀ b1 b2 b3 b4 rest, parse_varint (0xfe :: b1 :: b2 :: b3 :: b4 :: rest) =
      .ok (b1 + 256 * (b2 + 256 * (b3 + 256 * b4)), 5)) ∧
    (∀ b1 b2 b3 b4 b5 b6 b7 b8 rest,
      parse_varint (0xff :: b1 :: b2 :: b3 :: b4 :: b5 :: b6 :: b7 :: b8 :: rest) =
        .ok (b1 + 256 * (b2 + 256 * (b3 + 256 * (b4 + 256 *
          (b5 + 256 * (b6 + 256 * (b7 + 256 * b8)))))), 9)) ∧
    (∀ data : List Nat, (∃ e, parse_varint data = .error e) ↔
      data = [] ∨ (data.getD 0 0 = 0xfd ∧ data.length < 3) ∨
      (data.getD 0 0 = 0xfe ∧ data.length < 5) ∨
      (data.getD 0 0 = 0xff ∧ data.length < 9)) := by
  refine ⟨?_, ?_, ?_, ?_, ?_⟩
  · intro b rest h
    rw [parse_varint, if_neg (by omega), if_neg (by omega), if_neg (by omega)]
  · intro b1 b2 rest
    rw [parse_varint, if_pos rfl, if_neg (by simp)]
    simp [leVal]
  · intro b1 b2 b3 b4 rest
    rw [parse_varint, if_neg (by omega), if_pos rfl, if_neg (by simp)]
    simp [leVal]
  · intro b1 b2 b3 b4 b5 b6 b7 b8 rest
    rw [parse_varint, if_neg (by omega), if_neg (by omega), if_pos rfl,
      if_neg (by simp)]
    simp [leVal]
  · intro data
    match data with
    | [] => simp [parse_varint]
    | b0 :: rest =>
      by_cases h253 : b0 = 253
      · subst h253
        rw [parse_varint, if_pos rfl]
        by_cases hl : rest.length + 1 < 3
        · simp [hl]
        · simp [hl]
      · by_cases h254 : b0 = 254
        · subst h254
          rw [parse_varint, if_neg (by omega), if_pos rfl]
          by_cases hl : rest.length + 1 < 5
          · simp [hl]
          · simp [hl]
        · by_cases h255 : b0 = 255
          · subst h255
            rw [parse_varint, if_neg (by omega), if_neg (by omega), if_pos rfl]
            by_cases hl : rest.length + 1 < 9
            · simp [hl]
            · simp [hl]
          · rw [parse_varint, if_neg h253, if_neg h254, if_neg h255]
            simp [h253, h254, h255]

theorem c7_witness :
    parse_varint [5] = .ok (5, 1) ∧
    parse_varint [0xfd, 1, 2] = .ok (1 + 256 * 2, 3) ∧
    (∃ e, parse_varint [0xfd, 1] = .error e) := by
  refine ⟨c7_parse_varint_cases.1 5 [] (by omega),
    c7_parse_varint_cases.2.1 1 2 [], ?_⟩
  exact (c7_parse_varint_cases.2.2.2.2 [0xfd, 1]).mpr (by simp)

/-! ## C3: txid mismatch short-circuits the pipeline -/

/-- C3: whenever the expected txid hex decodes to 32 bytes but sha256d of
the decoded transaction differs from the byte-reversed expected txid, the
end-to-end verification is exactly the txid-mismatch error — a single error
value, with no later stage influencing the outcome. -/
theorem c3_txid_mismatch_short_circuit :
    ∀ (txHex expectedTxidHex : String) (sibs : List String) (pos : Nat)
      (headerHex target : String) (txBytes expBytes : List Nat),
      hexDecode expectedTxidHex = some expBytes → expBytes.length = 32 →
      hexDecode txHex = some txBytes → sha256d txBytes ≠ expBytes.reverse →
      verify_tx_in_block_and_outputs txHex expectedTxidHex sibs pos headerHex target =
        .err "txid mismatch" := by
  intro txHex expectedTxidHex sibs pos headerHex target txBytes expBytes he hlen ht hne
  have hbeq : (sha256d txBytes == expBytes.reverse) = false := beq_eq_false_iff_ne.mpr hne
  simp [verify_tx_in_block_and_outputs, verify_txid, compute_raw_tx_hash_from_txhex,
    he, ht, hlen, hbeq]

theorem c3_witness :
    verify_tx_in_block_and_outputs "00"
      "0000000000000000000000000000000000000000000000000000000000000000" [] 0 "" "" =
      .err "txid mismatch" :=
  c3_txid_mismatch_short_circuit "00"
    "0000000000000000000000000000000000000000000000000000000000000000" [] 0 "" ""
    [0] (List.replicate 32 0) (by decide) (by decide) (by decide) (by decide)

/-! ## C8: display/internal round trip -/

theorem hexVal_hexChar (d : Nat) (h : d < 16) : hexVal (hexChar d) = some d := by
  interval_cases d <;> decide

theorem hexVal_lt (c : Char) (v : Nat) (h : hexVal c = some v) : v < 16 := by
  rw [hexVal] at h
  split_ifs at h <;> (injection h with hv; omega)

theorem hexDecodeL_hexEncodeL (l : List Nat) (h : ∀ b ∈ l, b < 256) :
    hexDecodeL (hexEncodeL l) = some l := by
  induction l with
  | nil => rfl
  | cons b rest ih =>
    have hb : b < 256 := h b (by simp)
    rw [hexEncodeL, hexDecodeL, hexVal_hexChar _ (by omega), hexVal_hexChar _ (by omega),
      ih (fun x hx => h x (by simp [hx]))]
    have : 16 * (b / 16) + b % 16 = b := by omega
    simp [this]

theorem hexChar_eq_lowerHex (c : Char) (v : Nat) (h : hexVal c = some v) :
    hexChar v = lowerHex c := by
  rw [hexVal] at h
  split_ifs at h with h1 h2 h3 <;> injection h with hv <;> subst hv
  · rw [hexChar, if_pos (by omega), lowerHex, if_neg (by omega),
      show 48 + (c.toNat - 48) = c.toNat by omega, Char.ofNat_toNat]
  · rw [hexChar, if_neg (by omega), lowerHex, if_neg (by omega),
      show 87 + (c.toNat - 87) = c.toNat by omega, Char.ofNat_toNat]
  · rw [hexChar, if_neg (by omega), lowerHex, if_pos (by omega),
      show 87 + (c.toNat - 55) = c.toNat + 32 by omega]

theorem hexEncodeL_hexDecodeL : ∀ (cs : List Char) (bs : List Nat),
    hexDecodeL cs = some bs → hexEncodeL bs = cs.map lowerHex
  | [], bs, h => by
    rw [hexDecodeL] at h
    injection h with h'
    subst h'
    rfl
  | [c], bs, h => by
    rw [hexDecodeL] at h
    exact absurd h (by simp)
  | c1 :: c2 :: rest, bs, h => by
    rw [hexDecodeL] at h
    cases hv1 : hexVal c1 with
    | none => rw [hv1] at h; exact absurd h (by simp)
    | some v1 =>
      cases hv2 : hexVal c2 with
      | none => rw [hv1, hv2] at h; exact absurd h (by simp)
      | some v2 =>
        cases hrest : hexDecodeL rest with
        | none => rw [hv1, hv2, hrest] at h; exact absurd h (by simp)
        | some bs' =>
          rw [hv1, hv2, hrest] at h
          injection h with h'
          subst h'
          have hb1 : v1 < 16 := hexVal_lt c1 v1 hv1
          have hb2 : v2 < 16 := hexVal_lt c2 v2 hv2
          rw [hexEncodeL, show (16 * v1 + v2) / 16 = v1 by omega,
            show (16 * v1 + v2) % 16 = v2 by omega,
            hexChar_eq_lowerHex c1 v1 hv1, hexChar_eq_lowerHex c2 v2 hv2,
            hexEncodeL_hexDecodeL rest bs' hrest, List.map_cons, List.map_cons]

/-- C8: for every 32-byte value, display conversion (reverse then
hex-encode) followed by internal conversion (hex-decode, length check,
reverse) is the identity; and converting a decodable 64-hex-character string
to internal form and back returns the same string up to hex-digit case. -/
theorem c8_byte_order_roundtrip :
    (∀ x : List Nat, x.length = 32 → (∀ b ∈ x, b < 256) →
      hex_sibling_to_internal (to_display x) = .ok x) ∧
    (∀ (s : String) (a : List Nat), hex_sibling_to_internal s = .ok a →
      to_display a = String.mk (s.data.map lowerHex)) := by
  constructor
  · intro x hlen hbyte
    rw [to_display, hex_sibling_to_internal]
    have hdec : hexDecode (hexEncode x.reverse) = some x.reverse :=
      hexDecodeL_hexEncodeL x.reverse (fun b hb => hbyte b (List.mem_reverse.mp hb))
    rw [hdec]
    simp [hlen]
  · intro s a h
    rw [hex_sibling_to_internal] at h
    cases hd : hexDecode s with
    | none => simp only [hd] at h; exact absurd h (by simp)
    | some bytes =>
      simp only [hd] at h
      by_cases hl : bytes.length ≠ 32
      · simp only [if_pos hl] at h; exact absurd h (by simp)
      · rw [if_neg hl] at h
        injection h with h'
        subst h'
        rw [to_display, List.reverse_reverse, hexEncode,
          hexEncodeL_hexDecodeL s.data bytes hd]

theorem c8_witness :
    hex_sibling_to_internal (to_display (List.range 32)) = .ok (List.range 32) ∧
    to_display (List.replicate 32 0) = String.mk
      ("0000000000000000000000000000000000000000000000000000000000000000".data.map lowerHex) :=
  ⟨c8_byte_order_roundtrip.1 (List.range 32) (by decide) (by decide),
   c8_byte_order_roundtrip.2
     "0000000000000000000000000000000000000000000000000000000000000000"
     (List.replicate 32 0) (by decide)⟩

/-! ## C4: the block-header reader -/

theorem sha256_length (msg : List Nat) : (sha256 msg).length = 32 := by
  simp [sha256, be32bytes]

theorem be32bytes_lt (x : Nat) : ∀ b ∈ be32bytes x, b < 256 := by
  intro b hb
  simp only [be32bytes, List.mem_cons, List.not_mem_nil, or_false] at hb
  have h255 : ∀ y : Nat, y &&& 255 < 256 := fun y => Nat.lt_succ_of_le Nat.and_le_right
  rcases hb with h | h | h | h <;> (subst h; exact h255 _)

theorem sha256_byte_lt (msg : List Nat) : ∀ b ∈ sha256 msg, b < 256 := by
  intro b hb
  simp only [sha256, List.mem_append] at hb
  rcases hb with ((((((h | h) | h) | h) | h) | h) | h) | h <;> exact be32bytes_lt _ b h

theorem hexEncodeL_length (l : List Nat) : (hexEncodeL l).length = 2 * l.length := by
  induction l with
  | nil => rfl
  | cons b rest ih =>
    rw [hexEncodeL, List.length_cons, List.length_cons, ih, List.length_cons]
    omega

theorem hexChar_class (d : Nat) (h : d < 16) :
    (48 ≤ (hexChar d).toNat ∧ (hexChar d).toNat ≤ 57) ∨
    (97 ≤ (hexChar d).toNat ∧ (hexChar d).toNat ≤ 102) := by
  interval_cases d <;> decide

theorem hexEncodeL_chars (l : List Nat) (h : ∀ b ∈ l, b < 256) :
    ∀ c ∈ hexEncodeL l,
      (48 ≤ c.toNat ∧ c.toNat ≤ 57) ∨ (97 ≤ c.toNat ∧ c.toNat ≤ 102) := by
  induction l with
  | nil => simp [hexEncodeL]
  | cons b rest ih =>
    intro c hc
    have hb : b < 256 := h b (by simp)
    rw [hexEncodeL] at hc
    rcases List.mem_cons.mp hc with hc | hc
    · subst hc; exact hexChar_class _ (by omega)
    · rcases List.mem_cons.mp hc with hc | hc
      · subst hc; exact hexChar_class _ (by omega)
      · exact ih (fun x hx => h x (by simp [hx])) c hc

/-- C4: the header reader errors exactly when the decoded bytes are not 80;
on an 80-byte header it returns bytes 36..68 unreversed as the internal
merkle root together with the lowercase 64-hex-character encoding of the
byte-reversed sha256d of the whole header. -/
theorem c4_block_header_reader :
    ∀ (s : String) (bytes : List Nat), hexDecode s = some bytes →
      ((∃ e, block_header_merkle_root_and_block_hash s = .error e) ↔ bytes.length ≠ 80) ∧
      (bytes.length = 80 →
        block_header_merkle_root_and_block_hash s =
          .ok ((bytes.drop 36).take 32, hexEncode (sha256d bytes).reverse) ∧
        (hexEncode (sha256d bytes).reverse).length = 64 ∧
        (∀ c ∈ (hexEncode (sha256d bytes).reverse).data,
          (48 ≤ c.toNat ∧ c.toNat ≤ 57) ∨ (97 ≤ c.toNat ∧ c.toNat ≤ 102))) := by
  intro s bytes hd
  constructor
  · rw [block_header_merkle_root_and_block_hash, hd]
    by_cases hl : bytes.length ≠ 80
    · simp [hl]
    · simp [hl]
  · intro h80
    rw [block_header_merkle_root_and_block_hash]
    simp only [hd]
    rw [if_neg (by omega)]
    refine ⟨rfl, ?_, ?_⟩
    · show (hexEncodeL (sha256d bytes).reverse).length = 64
      rw [hexEncodeL_length, List.length_reverse, sha256d, sha256_length]
    · show ∀ c ∈ hexEncodeL (sha256d bytes).reverse, _
      exact hexEncodeL_chars _ (fun b hb =>
        sha256_byte_lt (sha256 bytes) b (List.mem_reverse.mp hb))

theorem c4_witness :
    block_header_merkle_root_and_block_hash
      "0100000000000000000000000000000000000000000000000000000000000000000000003ba3edfd7a7b12b27ac72c3e67768f617fc81bc3888a51323a9fb8aa4b1e5e4a29ab5f49ffff001d1dac2b7c" =
      .ok ([59, 163, 237, 253, 122, 123, 18, 178, 122, 199, 44, 62, 103, 118, 143, 97,
            127, 200, 27, 195, 136, 138, 81, 50, 58, 159, 184, 170, 75, 30, 94, 74],
        "000000000019d6689c085ae165831e934ff763ae46a2a6c172b3f1b60a8ce26f") := by
  have h := (c4_block_header_reader
    "0100000000000000000000000000000000000000000000000000000000000000000000003ba3edfd7a7b12b27ac72c3e67768f617fc81bc3888a51323a9fb8aa4b1e5e4a29ab5f49ffff001d1dac2b7c"
    [1, 0, 0, 0, 0, 0, 0, 0, 0, 0, 0, 0, 0, 0, 0, 0, 0, 0, 0, 0, 0, 0, 0, 0, 0, 0,
     0, 0, 0, 0, 0, 0, 0, 0, 0, 0, 59, 163, 237, 253, 122, 123, 18, 178, 122, 199,
     44, 62, 103, 118, 143, 97, 127, 200, 27, 195, 136, 138, 81, 50, 58, 159, 184,
     170, 75, 30, 94, 74, 41, 171, 95, 73, 255, 255, 0, 29, 29, 172, 43, 124]
    (by decide)).2 (by decide)
  exact h.1.trans (by decide)

/-! ## C1: the transaction parser retains only recognized outputs -/

theorem outputsLoop_refines (bytes : List Nat) : ∀ n cursor,
    outputsLoopI bytes n cursor =
      (outputsLoopA bytes n cursor).map (List.filterMap recognizedPair) := by
  intro n
  induction n with
  | zero => intro cursor; rfl
  | succ n ih =>
    intro cursor
    rw [outputsLoopI, outputsLoopA]
    by_cases h1 : (cursor + 8) % uszMod > bytes.length
    · rw [if_pos h1, if_pos h1]; rfl
    · rw [if_neg h1, if_neg h1]
      by_cases h2 : cursor > (cursor + 8) % uszMod
      · rw [if_pos h2, if_pos h2]; rfl
      · rw [if_neg h2, if_neg h2]
        cases hpv : parse_varint (bytes.drop ((cursor + 8) % uszMod)) with
        | error e => rfl
        | ok p =>
          obtain ⟨sl, sll⟩ := p
          dsimp only
          by_cases h3 : (((cursor + 8) % uszMod + sll) % uszMod + sl) % uszMod > bytes.length
          · rw [if_pos h3, if_pos h3]; rfl
          · rw [if_neg h3, if_neg h3]
            by_cases h4 : ((cursor + 8) % uszMod + sll) % uszMod >
                (((cursor + 8) % uszMod + sll) % uszMod + sl) % uszMod
            · rw [if_pos h4, if_pos h4]; rfl
            · rw [if_neg h4, if_neg h4]
              rw [ih]
              cases hrec : outputsLoopA bytes n
                  ((((cursor + 8) % uszMod + sll) % uszMod + sl) % uszMod) with
              | err e => rfl
              | panic => rfl
              | ok rest =>
                dsimp only [RustResult.map]
                rw [List.filterMap_cons]
                dsimp only [recognizedPair, recognizeScript]
                cases hp : extract_p2pkh_address
                    ((bytes.drop (((cursor + 8) % uszMod + sll) % uszMod)).take
                      ((((cursor + 8) % uszMod + sll) % uszMod + sl) % uszMod -
                        ((cursor + 8) % uszMod + sll) % uszMod)) with
                | ok address => simp only [hp, Option.map_some']
                | error e1 =>
                  cases hw : extract_p2wpkh_address
                      ((bytes.drop (((cursor + 8) % uszMod + sll) % uszMod)).take
                        ((((cursor + 8) % uszMod + sll) % uszMod + sl) % uszMod -
                          ((cursor + 8) % uszMod + sll) % uszMod)) with
                  | ok address => simp only [hp, hw, Option.map_some']
                  | error e2 => simp only [hp, hw, Option.map_none']

/-- C1 (amended): the parsed output sequence contains one entry, in
transaction order with its value intact, for each serialized output whose
script is recognized as P2PKH or P2WPKH; outputs with any other script are
silently dropped from the sequence, not errors. -/
theorem c1_parse_outputs_keeps_recognized :
    ∀ txHex, parse_tx_outputs txHex =
      (parse_tx_outputs_all txHex).map (List.filterMap recognizedPair) := by
  intro txHex
  rw [parse_tx_outputs, parse_tx_outputs_all]
  cases hs : parseOutputsSetup txHex with
  | ok t =>
    obtain ⟨bytes, n, c⟩ := t
    exact outputsLoop_refines bytes n c
  | err e => rfl
  | panic => rfl

/-- C1 counterexample: a legacy transaction with exactly one serialized
output whose script is `OP_RETURN` (unrecognized) parses to the *empty*
output list — the output is dropped, not retained with an absent address. -/
theorem c1_counterexample :
    parse_tx_outputs
      "01000000010000000000000000000000000000000000000000000000000000000000000000000000000000000000010500000000000000016a" =
      .ok [] ∧
    parse_tx_outputs_all
      "01000000010000000000000000000000000000000000000000000000000000000000000000000000000000000000010500000000000000016a" =
      .ok [⟨5, none⟩] :=
  ⟨by decide, by decide⟩

/-! ## C9: adversarial varint length fields overflow the bounds check -/

/-- C9 refuted at a concrete input: a transaction declaring an output script
length of 18446744073709551615 makes `cursor + script_len` wrap in `usize`,
the wrapped bounds check passes, and the script slice has start 23 > end 22:
the parse panics instead of returning a truncation error. -/
theorem c9_wraparound_panic :
    parse_tx_outputs "0100000000020000000000000000ffffffffffffffffff" = .panic := by decide

/-! ## C5, C6: the payment aggregator -/

theorem sumLoopLegacy_spec (target : String) :
    ∀ (outs : List (String × Nat)) (total : Nat) (matched : Bool),
      total < 18446744073709551616 →
      sumLoopLegacy target outs total matched =
        (if 18446744073709551616 ≤
            total + ((outs.filter (fun o => o.1 == target)).map (fun o => o.2)).sum then
          .error "overflow adding outputs"
         else if matched = false ∧ outs.filter (fun o => o.1 == target) = [] then
          .error "no outputs to target"
         else .ok (total + ((outs.filter (fun o => o.1 == target)).map (fun o => o.2)).sum)) := by
  intro outs
  induction outs with
  | nil =>
    intro total matched htot
    rw [sumLoopLegacy]
    simp only [List.filter_nil, List.map_nil, List.sum_nil, Nat.add_zero]
    cases matched
    · simp only [Bool.not_false]
      rw [if_pos trivial, if_neg (by omega), if_pos ⟨trivial, trivial⟩]
    · simp only [Bool.not_true]
      rw [if_neg (by simp), if_neg (by omega), if_neg (by simp)]
  | cons o rest ih =>
    intro total matched htot
    obtain ⟨addr, val⟩ := o
    rw [sumLoopLegacy]
    by_cases he : addr = target
    · have hb : (addr == target) = true := beq_iff_eq.mpr he
      rw [if_pos hb]
      simp only [List.filter_cons, hb, if_true, List.map_cons, List.sum_cons]
      by_cases hov : total + val < 18446744073709551616
      · have hca : checkedAdd total val = some (total + val) := by
          rw [checkedAdd, if_pos hov]
        simp only [hca]
        rw [ih (total + val) true hov, ← Nat.add_assoc]
        simp
      · have hca : checkedAdd total val = none := by rw [checkedAdd, if_neg hov]
        simp only [hca]
        rw [if_pos (by omega)]
    · have hb : (addr == target) = false := beq_eq_false_iff_ne.mpr he
      rw [if_neg (by simp [hb]), ih total matched htot]
      simp only [List.filter_cons, hb, if_false, Bool.false_eq_true]

theorem sumLoopBech_spec (th : List Nat) :
    ∀ (outs : List (String × Nat)) (total : Nat) (matched : Bool),
      total < 18446744073709551616 →
      sumLoopBech th outs total matched =
        (if 18446744073709551616 ≤ total +
            ((outs.filter (fun o => decode_bech32_pubkey_hash o.1 == Except.ok th)).map
              (fun o => o.2)).sum then
          .error "overflow adding outputs"
         else if matched = false ∧
            outs.filter (fun o => decode_bech32_pubkey_hash o.1 == Except.ok th) = [] then
          .error "no outputs to target"
         else .ok (total +
            ((outs.filter (fun o => decode_bech32_pubkey_hash o.1 == Except.ok th)).map
              (fun o => o.2)).sum)) := by
  intro outs
  induction outs with
  | nil =>
    intro total matched htot
    rw [sumLoopBech]
    simp only [List.filter_nil, List.map_nil, List.sum_nil, Nat.add_zero]
    cases matched
    · simp only [Bool.not_false]
      rw [if_pos trivial, if_neg (by omega), if_pos ⟨trivial, trivial⟩]
    · simp only [Bool.not_true]
      rw [if_neg (by simp), if_neg (by omega), if_neg (by simp)]
  | cons o rest ih =>
    intro total matched htot
    obtain ⟨addr, val⟩ := o
    rw [sumLoopBech]
    cases hdec : decode_bech32_pubkey_hash addr with
    | error e =>
      dsimp only
      rw [ih total matched htot]
      simp only [List.filter_cons, hdec]
      have : (Except.error e == Except.ok th) = false := by
        simp [BEq.beq]
      simp only [this, if_false, Bool.false_eq_true]
    | ok h =>
      dsimp only
      by_cases he : h = th
      · rw [if_pos he]
        have hb : ((Except.ok h : Except String (List Nat)) == Except.ok th) = true :=
          beq_iff_eq.mpr (by rw [he])
        simp only [List.filter_cons, hdec, hb, if_true, List.map_cons, List.sum_cons]
        by_cases hov : total + val < 18446744073709551616
        · have hca : checkedAdd total val = some (total + val) := by
            rw [checkedAdd, if_pos hov]
          simp only [hca]
          rw [ih (total + val) true hov, ← Nat.add_assoc]
          simp
        · have hca : checkedAdd total val = none := by rw [checkedAdd, if_neg hov]
          simp only [hca]
          rw [if_pos (by omega)]
      · rw [if_neg he, ih total matched htot]
        have hb : ((Except.ok h : Except String (List Nat)) == Except.ok th) = false :=
          beq_eq_false_iff_ne.mpr (by simp [he])
        simp only [List.filter_cons, hdec, hb, if_false, Bool.false_eq_true]

/-- C5: payment aggregation over any resolvable target sums the matching
output values with overflow-checked addition — `AmountOverflow` whenever the
running u64 sum would overflow, `NoPaymentFound` exactly when zero outputs
match, and the (possibly zero) sum when at least one output matches. -/
theorem c5_payment_aggregation :
    ∀ (outs : List (String × Nat)) (target : String),
      ((startsWithS target "bc1" || startsWithS target "tb1") = false →
        sum_outputs_to_target outs target =
          (if 18446744073709551616 ≤
              ((outs.filter (fun o => o.1 == target)).map (fun o => o.2)).sum then
            .error "overflow adding outputs"
           else if outs.filter (fun o => o.1 == target) = [] then
            .error "no outputs to target"
           else .ok ((outs.filter (fun o => o.1 == target)).map (fun o => o.2)).sum)) ∧
      (∀ th, (startsWithS target "bc1" || startsWithS target "tb1") = true →
        decode_bech32_pubkey_hash target = .ok th →
        sum_outputs_to_target outs target =
          (if 18446744073709551616 ≤
              ((outs.filter (fun o => decode_bech32_pubkey_hash o.1 == Except.ok th)).map
                (fun o => o.2)).sum then
            .error "overflow adding outputs"
           else if outs.filter (fun o => decode_bech32_pubkey_hash o.1 == Except.ok th) = [] then
            .error "no outputs to target"
           else .ok ((outs.filter
              (fun o => decode_bech32_pubkey_hash o.1 == Except.ok th)).map
                (fun o => o.2)).sum)) := by
  intro outs target
  constructor
  · intro hpre
    rw [sum_outputs_to_target, if_neg (by simp [hpre]), sum_outputs_to_target_legacy,
      sumLoopLegacy_spec target outs 0 false (by omega)]
    simp only [Nat.zero_add, true_and]
  · intro th hpre hdec
    rw [sum_outputs_to_target, if_pos hpre]
    simp only [hdec]
    rw [sumLoopBech_spec th outs 0 false (by omega)]
    simp only [Nat.zero_add, true_and]

theorem c5_witness :
    sum_outputs_to_target [("x", 0), ("y", 3)] "x" = .ok 0 ∧
    sum_outputs_to_target [("bc1qw508d6qejxtdg4y5r3zarvary0c5xw7kv8f3t4", 7)]
      "bc1qw508d6qejxtdg4y5r3zarvary0c5xw7kv8f3t4" = .ok 7 := by
  constructor
  · rw [(c5_payment_aggregation [("x", 0), ("y", 3)] "x").1 (by decide)]
    decide
  · rw [(c5_payment_aggregation _ _).2
      [0x75, 0x1e, 0x76, 0xe8, 0x19, 0x91, 0x96, 0xd4, 0x54, 0x94,
       0x1c, 0x45, 0xd1, 0xb3, 0xa3, 0x23, 0xf1, 0x43, 0x3b, 0xd6]
      (by decide) (by decide)]
    decide

/-- C6 (amended): the exact-string-equality fallback applies exactly to
targets that do not start with `bc1` or `tb1` — those are summed by the
legacy matcher, succeeding whenever a matching output exists and no overflow
occurs; a target that starts with `bc1`/`tb1` but fails bech32 decoding
yields the decode error and never reaches the fallback. -/
theorem c6_fallback_scope :
    ∀ (outs : List (String × Nat)) (target : String),
      ((startsWithS target "bc1" || startsWithS target "tb1") = false →
        sum_outputs_to_target outs target = sum_outputs_to_target_legacy outs target ∧
        (outs.filter (fun o => o.1 == target) ≠ [] →
          ((outs.filter (fun o => o.1 == target)).map (fun o => o.2)).sum <
            18446744073709551616 →
          sum_outputs_to_target outs target =
            .ok ((outs.filter (fun o => o.1 == target)).map (fun o => o.2)).sum)) ∧
      (∀ e, (startsWithS target "bc1" || startsWithS target "tb1") = true →
        decode_bech32_pubkey_hash target = .error e →
        sum_outputs_to_target outs target = .error e) := by
  intro outs target
  constructor
  · intro hpre
    constructor
    · rw [sum_outputs_to_target, if_neg (by simp [hpre])]
    · intro hne hov
      rw [sum_outputs_to_target, if_neg (by simp [hpre]), sum_outputs_to_target_legacy,
        sumLoopLegacy_spec target outs 0 false (by omega)]
      rw [if_neg (by omega), if_neg (by simp [hne])]
      rw [Nat.zero_add]
  · intro e hpre hdec
    rw [sum_outputs_to_target, if_pos hpre]
    simp only [hdec]

/-- C6 counterexample: the target `"bc1zzz"` is not bech32-decodable, and by
the claim the fallback should match it to the equal output string and return
its value 5 — but the code propagates the bech32 decode error instead. -/
theorem c6_counterexample :
    sum_outputs_to_target [("bc1zzz", 5)] "bc1zzz" = .error "bech32 decode: invalid length" ∧
    sum_outputs_to_target [("bc1zzz", 5)] "bc1zzz" ≠ .ok 5 :=
  ⟨by decide, by decide⟩

theorem c6_witness :
    sum_outputs_to_target [("abc", 2)] "abc" = sum_outputs_to_target_legacy [("abc", 2)] "abc" ∧
    sum_outputs_to_target [("abc", 2)] "abc" = .ok 2 ∧
    sum_outputs_to_target [("bc1zzz0", 5)] "bc1zzz0" = .error "bech32 decode: invalid length" := by
  refine ⟨((c6_fallback_scope [("abc", 2)] "abc").1 (by decide)).1, ?_, ?_⟩
  · rw [((c6_fallback_scope [("abc", 2)] "abc").1 (by decide)).2 (by decide) (by decide)]
    decide
  · exact (c6_fallback_scope [("bc1zzz0", 5)] "bc1zzz0").2
      "bech32 decode: invalid length" (by decide) (by decide)

/-! ## C10: bech32 checksum algebra -/

theorem nxor_left_comm (a b c : Nat) : a ^^^ (b ^^^ c) = b ^^^ (a ^^^ c) := by
  rw [← Nat.xor_assoc, Nat.xor_comm a b, Nat.xor_assoc]

theorem shiftRight_xor_distrib (x y k : Nat) : (x ^^^ y) >>> k = (x >>> k) ^^^ (y >>> k) := by
  apply Nat.eq_of_testBit_eq
  intro i
  simp [Nat.testBit_shiftRight, Nat.testBit_xor]

theorem shiftLeft_xor_distrib (x y k : Nat) : (x ^^^ y) <<< k = (x <<< k) ^^^ (y <<< k) := by
  apply Nat.eq_of_testBit_eq
  intro i
  simp only [Nat.testBit_shiftLeft, Nat.testBit_xor]
  by_cases h : k ≤ i <;> simp [h]

theorem condXorB (c g : Nat) (cond : Bool) :
    (if cond = true then c ^^^ g else c) = c ^^^ (if cond = true then g else 0) := by
  cases cond <;> simp

theorem polymodStep_eq (chk v : Nat) :
    polymodStep chk v = ((chk &&& 0x1ffffff) <<< 5) ^^^ v ^^^ bech32GenSel (chk >>> 25) := by
  rw [polymodStep, show List.range 5 = [0, 1, 2, 3, 4] from rfl]
  simp only [List.foldl_cons, List.foldl_nil, condXorB, bech32Gen, List.getD, bech32GenSel]
  simp only [Nat.xor_assoc]
  rfl

theorem bech32GenSel_xor (b1 b2 : Nat) :
    bech32GenSel (b1 ^^^ b2) = bech32GenSel b1 ^^^ bech32GenSel b2 := by
  have hbit : ∀ (i g : Nat),
      (if ((b1 ^^^ b2) >>> i) &&& 1 == 1 then g else 0) =
        (if (b1 >>> i) &&& 1 == 1 then g else 0) ^^^
          (if (b2 >>> i) &&& 1 == 1 then g else 0) := by
    intro i g
    rw [shiftRight_xor_distrib, Nat.and_xor_distrib_right]
    have h1 : b1 >>> i &&& 1 ≤ 1 := Nat.and_le_right
    have h2 : b2 >>> i &&& 1 ≤ 1 := Nat.and_le_right
    rcases Nat.le_one_iff_eq_zero_or_eq_one.mp h1 with e1 | e1 <;>
      rcases Nat.le_one_iff_eq_zero_or_eq_one.mp h2 with e2 | e2 <;>
      rw [e1, e2] <;> simp
  rw [bech32GenSel, bech32GenSel, bech32GenSel, hbit 0, hbit 1, hbit 2, hbit 3, hbit 4]
  ac_rfl

theorem polymodStep_xor (x y v w : Nat) :
    polymodStep (x ^^^ y) (v ^^^ w) = polymodStep x v ^^^ polymodStep y w := by
  rw [polymodStep_eq, polymodStep_eq, polymodStep_eq, shiftRight_xor_distrib,
    bech32GenSel_xor, Nat.and_xor_distrib_right, shiftLeft_xor_distrib]
  ac_rfl

theorem foldl_polymodStep_xor : ∀ (vs ws : List Nat) (x y : Nat), vs.length = ws.length →
    (List.zipWith (fun a b => a ^^^ b) vs ws).foldl polymodStep (x ^^^ y) =
      vs.foldl polymodStep x ^^^ ws.foldl polymodStep y := by
  intro vs
  induction vs with
  | nil =>
    intro ws x y hlen
    cases ws with
    | nil => simp
    | cons b u => simp at hlen
  | cons a t ih =>
    intro ws x y hlen
    cases ws with
    | nil => simp at hlen
    | cons b u =>
      simp only [List.zipWith_cons_cons, List.foldl_cons]
      rw [polymodStep_xor]
      exact ih u _ _ (by simpa using hlen)

theorem bech32GenSel_lt (b : Nat) : bech32GenSel b < 2 ^ 30 := by
  rw [bech32GenSel]
  split_ifs <;> decide

theorem polymodStep_lt (chk v : Nat) (hv : v < 32) : polymodStep chk v < 2 ^ 30 := by
  rw [polymodStep_eq]
  apply Nat.xor_lt_two_pow
  apply Nat.xor_lt_two_pow
  · rw [Nat.shiftLeft_eq, show (2 : Nat) ^ 5 = 32 from rfl]
    have h := Nat.and_le_right (n := chk) (m := 0x1ffffff)
    omega
  · exact lt_of_lt_of_le hv (by norm_num)
  · exact bech32GenSel_lt _

theorem polymod_fold_lt : ∀ (vs : List Nat) (chk : Nat), chk < 2 ^ 30 →
    (∀ v ∈ vs, v < 32) → vs.foldl polymodStep chk < 2 ^ 30 := by
  intro vs
  induction vs with
  | nil =>
    intro chk h _
    simpa using h
  | cons v t ih =>
    intro chk h hv
    simp only [List.foldl_cons]
    exact ih _ (polymodStep_lt chk v (hv v (by simp))) (fun x hx => hv x (by simp [hx]))

theorem polymodStep_small (chk v : Nat) (h : chk < 2 ^ 25) :
    polymodStep chk v = (chk <<< 5) ^^^ v := by
  rw [polymodStep_eq, show (0x1ffffff : Nat) = 2 ^ 25 - 1 from rfl,
    Nat.and_pow_two_sub_one_of_lt_two_pow h, Nat.shiftRight_eq_div_pow,
    Nat.div_eq_of_lt (lt_of_lt_of_le h (by norm_num)),
    show bech32GenSel 0 = 0 from by decide, Nat.xor_zero]

theorem shiftRight_lt_pow (x n k : Nat) (h : x < 2 ^ (n + k)) : x >>> k < 2 ^ n := by
  rw [Nat.shiftRight_eq_div_pow]
  apply Nat.div_lt_of_lt_mul
  rw [Nat.mul_comm, ← Nat.pow_add]
  exact h

theorem shift_slice_assemble (p a : Nat) :
    ((p >>> (a + 5)) <<< 5) ^^^ ((p >>> a) &&& 31) = p >>> a := by
  apply Nat.eq_of_testBit_eq
  intro i
  simp only [Nat.testBit_xor, Nat.testBit_shiftLeft, Nat.testBit_and, Nat.testBit_shiftRight,
    show (31 : Nat) = 2 ^ 5 - 1 from rfl, Nat.testBit_two_pow_sub_one]
  by_cases h : 5 ≤ i
  · have h2 : ¬i < 5 := by omega
    simp [h, h2, show a + 5 + (i - 5) = a + i by omega]
  · have h2 : i < 5 := by omega
    simp [h, h2]

theorem foldl_checksum_digits (plm : Nat) (hp : plm < 2 ^ 30) :
    [(plm >>> 25) &&& 31, (plm >>> 20) &&& 31, (plm >>> 15) &&& 31,
     (plm >>> 10) &&& 31, (plm >>> 5) &&& 31, (plm >>> 0) &&& 31].foldl polymodStep 0 = plm := by
  have hb : ∀ k, plm >>> (5 + k) < 2 ^ 25 := fun k => by
    apply shiftRight_lt_pow
    calc plm < 2 ^ 30 := hp
    _ ≤ 2 ^ (25 + (5 + k)) := Nat.pow_le_pow_right (by omega) (by omega)
  have hand : (plm >>> 25) &&& 31 = plm >>> 25 := by
    rw [show (31 : Nat) = 2 ^ 5 - 1 from rfl]
    exact Nat.and_pow_two_sub_one_of_lt_two_pow (shiftRight_lt_pow plm 5 25 hp)
  have s1 : polymodStep 0 ((plm >>> 25) &&& 31) = plm >>> 25 := by
    rw [polymodStep_small _ _ (by norm_num), Nat.zero_shiftLeft, Nat.zero_xor, hand]
  have s2 : polymodStep (plm >>> 25) ((plm >>> 20) &&& 31) = plm >>> 20 := by
    rw [polymodStep_small _ _ (hb 20)]
    exact shift_slice_assemble plm 20
  have s3 : polymodStep (plm >>> 20) ((plm >>> 15) &&& 31) = plm >>> 15 := by
    rw [polymodStep_small _ _ (hb 15)]
    exact shift_slice_assemble plm 15
  have s4 : polymodStep (plm >>> 15) ((plm >>> 10) &&& 31) = plm >>> 10 := by
    rw [polymodStep_small _ _ (hb 10)]
    exact shift_slice_assemble plm 10
  have s5 : polymodStep (plm >>> 10) ((plm >>> 5) &&& 31) = plm >>> 5 := by
    rw [polymodStep_small _ _ (hb 5)]
    exact shift_slice_assemble plm 5
  have s6 : polymodStep (plm >>> 5) (plm &&& 31) = plm := by
    rw [polymodStep_small _ _ (hb 0)]
    have h0 := shift_slice_assemble plm 0
    rwa [Nat.shiftRight_zero] at h0
  rw [List.foldl_cons, s1, List.foldl_cons, s2, List.foldl_cons, s3, List.foldl_cons, s4,
    List.foldl_cons, s5, List.foldl_cons, Nat.shiftRight_zero, s6, List.foldl_nil]

theorem bech32_checksum_verifies (hrp : List Char) (data : List Nat)
    (hv : ∀ v ∈ bech32_hrp_expand_l hrp ++ data, v < 32) :
    bech32_polymod (bech32_hrp_expand_l hrp ++ (data ++ bech32_create_checksum hrp data)) = 1 := by
  have hz6 : ∀ v ∈ ([0, 0, 0, 0, 0, 0] : List Nat), v < 32 := by decide
  have hQlt : bech32_polymod (bech32_hrp_expand_l hrp ++ (data ++ [0, 0, 0, 0, 0, 0])) < 2 ^ 30 := by
    rw [bech32_polymod]
    refine polymod_fold_lt _ 1 (by norm_num) ?_
    intro v hvm
    rcases List.mem_append.mp hvm with h | h
    · exact hv v (List.mem_append.mpr (Or.inl h))
    · rcases List.mem_append.mp h with h | h
      · exact hv v (List.mem_append.mpr (Or.inr h))
      · exact hz6 v h
  have hPlt : bech32_polymod (bech32_hrp_expand_l hrp ++ (data ++ [0, 0, 0, 0, 0, 0])) ^^^ 1 <
      2 ^ 30 := Nat.xor_lt_two_pow hQlt (by norm_num)
  set Q := bech32_polymod (bech32_hrp_expand_l hrp ++ (data ++ [0, 0, 0, 0, 0, 0])) with hQdef
  have hcs : bech32_create_checksum hrp data =
      [((Q ^^^ 1) >>> 25) &&& 31, ((Q ^^^ 1) >>> 20) &&& 31, ((Q ^^^ 1) >>> 15) &&& 31,
       ((Q ^^^ 1) >>> 10) &&& 31, ((Q ^^^ 1) >>> 5) &&& 31, ((Q ^^^ 1) >>> 0) &&& 31] := by
    rw [bech32_create_checksum]
    rfl
  have hQC : Q = List.foldl polymodStep
      (List.foldl polymodStep 1 (bech32_hrp_expand_l hrp ++ data)) [0, 0, 0, 0, 0, 0] := by
    rw [hQdef, bech32_polymod, ← List.foldl_append, ← List.append_assoc]
  rw [hcs, show bech32_hrp_expand_l hrp ++ (data ++
      [((Q ^^^ 1) >>> 25) &&& 31, ((Q ^^^ 1) >>> 20) &&& 31, ((Q ^^^ 1) >>> 15) &&& 31,
       ((Q ^^^ 1) >>> 10) &&& 31, ((Q ^^^ 1) >>> 5) &&& 31, ((Q ^^^ 1) >>> 0) &&& 31]) =
      (bech32_hrp_expand_l hrp ++ data) ++
      [((Q ^^^ 1) >>> 25) &&& 31, ((Q ^^^ 1) >>> 20) &&& 31, ((Q ^^^ 1) >>> 15) &&& 31,
       ((Q ^^^ 1) >>> 10) &&& 31, ((Q ^^^ 1) >>> 5) &&& 31, ((Q ^^^ 1) >>> 0) &&& 31]
    from (List.append_assoc _ _ _).symm]
  rw [bech32_polymod, List.foldl_append]
  have key := foldl_polymodStep_xor [0, 0, 0, 0, 0, 0]
    [((Q ^^^ 1) >>> 25) &&& 31, ((Q ^^^ 1) >>> 20) &&& 31, ((Q ^^^ 1) >>> 15) &&& 31,
     ((Q ^^^ 1) >>> 10) &&& 31, ((Q ^^^ 1) >>> 5) &&& 31, ((Q ^^^ 1) >>> 0) &&& 31]
    (List.foldl polymodStep 1 (bech32_hrp_expand_l hrp ++ data)) 0 (by simp)
  rw [Nat.xor_zero] at key
  rw [show List.zipWith (fun a b => a ^^^ b) ([0, 0, 0, 0, 0, 0] : List Nat)
      [((Q ^^^ 1) >>> 25) &&& 31, ((Q ^^^ 1) >>> 20) &&& 31, ((Q ^^^ 1) >>> 15) &&& 31,
       ((Q ^^^ 1) >>> 10) &&& 31, ((Q ^^^ 1) >>> 5) &&& 31, ((Q ^^^ 1) >>> 0) &&& 31] =
      [((Q ^^^ 1) >>> 25) &&& 31, ((Q ^^^ 1) >>> 20) &&& 31, ((Q ^^^ 1) >>> 15) &&& 31,
       ((Q ^^^ 1) >>> 10) &&& 31, ((Q ^^^ 1) >>> 5) &&& 31, ((Q ^^^ 1) >>> 0) &&& 31]
    from by simp [List.zipWith]] at key
  rw [key, foldl_checksum_digits (Q ^^^ 1) hPlt, ← hQC, ← Nat.xor_assoc, Nat.xor_self,
    Nat.zero_xor]

/-! ## C10: bit-regrouping arithmetic -/

theorem shiftLeft_or_eq_add (a v f : Nat) (hv : v < 2 ^ f) :
    (a <<< f) ||| v = 2 ^ f * a + v := by
  apply Nat.eq_of_testBit_eq
  intro i
  rw [Nat.testBit_mul_pow_two_add a hv i]
  simp only [Nat.testBit_or, Nat.testBit_shiftLeft]
  by_cases h : i < f
  · have hf : ¬f ≤ i := by omega
    simp [hf, h]
  · have hf : f ≤ i := by omega
    have hvf : Nat.testBit v i = false := by
      apply Nat.testBit_lt_two_pow
      exact lt_of_lt_of_le hv (Nat.pow_le_pow_right (by omega) hf)
    simp [hf, h, hvf]

theorem mod_pow_split (acc b t : Nat) :
    acc % 2 ^ (b + t) = (acc / 2 ^ b % 2 ^ t) * 2 ^ b + acc % 2 ^ b := by
  have h1 := Nat.div_add_mod (acc % (2 ^ b * 2 ^ t)) (2 ^ b)
  rw [Nat.mod_mul_right_div_self, Nat.mod_mul_right_mod] at h1
  rw [Nat.pow_add, Nat.mul_comm (acc / 2 ^ b % 2 ^ t) (2 ^ b)]
  exact h1.symm

theorem absorb_mod (acc v b f : Nat) (hv : v < 2 ^ f) (hbf : b + f ≤ 32) :
    ((acc <<< f ||| v) % 4294967296) % 2 ^ (b + f) = (acc % 2 ^ b) * 2 ^ f + v := by
  rw [show (4294967296 : Nat) = 2 ^ 32 from rfl,
    Nat.mod_mod_of_dvd _ (Nat.pow_dvd_pow 2 hbf), shiftLeft_or_eq_add acc v f hv]
  have hd := Nat.div_add_mod acc (2 ^ b)
  have hsplit : 2 ^ f * acc + v = acc / 2 ^ b * 2 ^ (b + f) + ((acc % 2 ^ b) * 2 ^ f + v) := by
    calc 2 ^ f * acc + v = 2 ^ f * (2 ^ b * (acc / 2 ^ b) + acc % 2 ^ b) + v := by rw [hd]
    _ = acc / 2 ^ b * (2 ^ b * 2 ^ f) + ((acc % 2 ^ b) * 2 ^ f + v) := by ring
    _ = acc / 2 ^ b * 2 ^ (b + f) + ((acc % 2 ^ b) * 2 ^ f + v) := by rw [Nat.pow_add]
  rw [hsplit, Nat.mul_comm (acc / 2 ^ b) (2 ^ (b + f)), Nat.mul_add_mod]
  apply Nat.mod_eq_of_lt
  have hm : acc % 2 ^ b < 2 ^ b := Nat.mod_lt _ (Nat.two_pow_pos b)
  calc (acc % 2 ^ b) * 2 ^ f + v < (acc % 2 ^ b) * 2 ^ f + 2 ^ f := by omega
  _ = (acc % 2 ^ b + 1) * 2 ^ f := by ring
  _ ≤ 2 ^ b * 2 ^ f := Nat.mul_le_mul_right _ (by omega)
  _ = 2 ^ (b + f) := (Nat.pow_add 2 b f).symm

theorem digitsVal_from (b : Nat) :
    ∀ (l : List Nat) (x : Nat), l.foldl (fun a d => a * b + d) x =
      x * b ^ l.length + digitsVal b l := by
  intro l
  induction l with
  | nil => intro x; simp [digitsVal]
  | cons d t ih =>
    intro x
    rw [List.foldl_cons, ih (x * b + d)]
    have h2 : digitsVal b (d :: t) = d * b ^ t.length + digitsVal b t := by
      rw [digitsVal, List.foldl_cons, Nat.zero_mul, Nat.zero_add, ih d]
    rw [h2, List.length_cons]
    ring

theorem digitsVal_cons (b d : Nat) (t : List Nat) :
    digitsVal b (d :: t) = d * b ^ t.length + digitsVal b t := by
  rw [digitsVal, List.foldl_cons, digitsVal_from]
  simp [digitsVal]

theorem digitsVal_append (b : Nat) (l1 l2 : List Nat) :
    digitsVal b (l1 ++ l2) = digitsVal b l1 * b ^ l2.length + digitsVal b l2 := by
  rw [digitsVal, List.foldl_append, digitsVal_from]
  rfl

theorem digitsVal_lt (b : Nat) (hb : 1 ≤ b) :
    ∀ l : List Nat, (∀ x ∈ l, x < b) → digitsVal b l < b ^ l.length := by
  intro l
  induction l with
  | nil => intro _; simp [digitsVal]
  | cons d t ih =>
    intro h
    rw [digitsVal_cons, List.length_cons]
    have hd : d < b := h d (by simp)
    have ht := ih (fun x hx => h x (by simp [hx]))
    calc d * b ^ t.length + digitsVal b t < d * b ^ t.length + b ^ t.length := by omega
    _ = (d + 1) * b ^ t.length := by ring
    _ ≤ b * b ^ t.length := Nat.mul_le_mul_right _ (by omega)
    _ = b ^ (t.length + 1) := by ring

theorem cbEmit_spec (tobits : Nat) (ht : 1 ≤ tobits) :
    ∀ (fuel acc b : Nat), b ≤ fuel →
      (convert_bits.cbEmit tobits fuel acc b).2 < tobits ∧
      (∀ d ∈ (convert_bits.cbEmit tobits fuel acc b).1, d < 2 ^ tobits) ∧
      tobits * (convert_bits.cbEmit tobits fuel acc b).1.length +
        (convert_bits.cbEmit tobits fuel acc b).2 = b ∧
      digitsVal (2 ^ tobits) (convert_bits.cbEmit tobits fuel acc b).1 *
          2 ^ (convert_bits.cbEmit tobits fuel acc b).2 +
        acc % 2 ^ (convert_bits.cbEmit tobits fuel acc b).2 = acc % 2 ^ b := by
  intro fuel
  induction fuel with
  | zero =>
    intro acc b hb
    have hb0 : b = 0 := by omega
    subst hb0
    refine ⟨by simpa [convert_bits.cbEmit] using ht, by simp [convert_bits.cbEmit], ?_, ?_⟩
    · simp [convert_bits.cbEmit]
    · simp [convert_bits.cbEmit, digitsVal]
  | succ fuel ih =>
    intro acc b hb
    rw [convert_bits.cbEmit]
    by_cases hc : tobits ≤ b
    · rw [if_pos hc]
      dsimp only
      obtain ⟨ih1, ih2, ih3, ih4⟩ := ih acc (b - tobits) (by omega)
      have hd_eq : (acc >>> (b - tobits)) &&& ((1 <<< tobits) - 1) =
          acc / 2 ^ (b - tobits) % 2 ^ tobits := by
        rw [Nat.shiftLeft_eq, Nat.one_mul, Nat.and_pow_two_sub_one_eq_mod,
          Nat.shiftRight_eq_div_pow]
      refine ⟨ih1, ?_, ?_, ?_⟩
      · intro d hd
        rcases List.mem_cons.mp hd with hd | hd
        · subst hd
          rw [hd_eq]
          exact Nat.mod_lt _ (Nat.two_pow_pos _)
        · exact ih2 d hd
      · rw [List.length_cons, Nat.mul_succ]
        omega
      · rw [digitsVal_cons, hd_eq]
        calc (acc / 2 ^ (b - tobits) % 2 ^ tobits *
                (2 ^ tobits) ^ (convert_bits.cbEmit tobits fuel acc (b - tobits)).1.length +
              digitsVal (2 ^ tobits) (convert_bits.cbEmit tobits fuel acc (b - tobits)).1) *
              2 ^ (convert_bits.cbEmit tobits fuel acc (b - tobits)).2 +
              acc % 2 ^ (convert_bits.cbEmit tobits fuel acc (b - tobits)).2
            = acc / 2 ^ (b - tobits) % 2 ^ tobits *
                2 ^ (tobits * (convert_bits.cbEmit tobits fuel acc (b - tobits)).1.length +
                  (convert_bits.cbEmit tobits fuel acc (b - tobits)).2) +
              (digitsVal (2 ^ tobits) (convert_bits.cbEmit tobits fuel acc (b - tobits)).1 *
                2 ^ (convert_bits.cbEmit tobits fuel acc (b - tobits)).2 +
              acc % 2 ^ (convert_bits.cbEmit tobits fuel acc (b - tobits)).2) := by
              rw [Nat.pow_add, Nat.pow_mul]
              ring
        _ = acc / 2 ^ (b - tobits) % 2 ^ tobits * 2 ^ (b - tobits) + acc % 2 ^ (b - tobits) := by
              rw [ih3, ih4]
        _ = acc % 2 ^ (b - tobits + tobits) := (mod_pow_split acc (b - tobits) tobits).symm
        _ = acc % 2 ^ b := by rw [show b - tobits + tobits = b by omega]
    · rw [if_neg hc]
      refine ⟨by omega, by simp, by simp, by simp [digitsVal]⟩

theorem cbLoop_len_step (t f b e2 bf : Nat) (E1 O R : List Nat)
    (hlenE : t * E1.length + e2 = b + f)
    (hlenO : t * O.length + bf = f * R.length + e2) :
    t * (E1 ++ O).length + bf = f * (R.length + 1) + b := by
  rw [List.length_append, Nat.mul_add, Nat.mul_succ]
  omega

theorem cbLoop_val_step (t f b e2 bf : Nat) (E1 O R : List Nat) (A accf acc v : Nat)
    (hlenO : t * O.length + bf = f * R.length + e2)
    (hvalO : digitsVal (2 ^ t) O * 2 ^ bf + accf % 2 ^ bf =
      A % 2 ^ e2 * 2 ^ (f * R.length) + digitsVal (2 ^ f) R)
    (hvalE : digitsVal (2 ^ t) E1 * 2 ^ e2 + A % 2 ^ e2 = acc % 2 ^ b * 2 ^ f + v) :
    digitsVal (2 ^ t) (E1 ++ O) * 2 ^ bf + accf % 2 ^ bf =
      acc % 2 ^ b * 2 ^ (f * (R.length + 1)) + digitsVal (2 ^ f) (v :: R) := by
  rw [digitsVal_append, digitsVal_cons]
  calc (digitsVal (2 ^ t) E1 * (2 ^ t) ^ O.length + digitsVal (2 ^ t) O) * 2 ^ bf +
        accf % 2 ^ bf
      = digitsVal (2 ^ t) E1 * 2 ^ (t * O.length + bf) +
        (digitsVal (2 ^ t) O * 2 ^ bf + accf % 2 ^ bf) := by
        rw [Nat.pow_add, Nat.pow_mul]
        ring
  _ = digitsVal (2 ^ t) E1 * 2 ^ (f * R.length + e2) +
        (A % 2 ^ e2 * 2 ^ (f * R.length) + digitsVal (2 ^ f) R) := by rw [hlenO, hvalO]
  _ = (digitsVal (2 ^ t) E1 * 2 ^ e2 + A % 2 ^ e2) * 2 ^ (f * R.length) +
        digitsVal (2 ^ f) R := by
        rw [Nat.pow_add]
        ring
  _ = (acc % 2 ^ b * 2 ^ f + v) * 2 ^ (f * R.length) + digitsVal (2 ^ f) R := by rw [hvalE]
  _ = acc % 2 ^ b * 2 ^ (f * (R.length + 1)) +
        (v * (2 ^ f) ^ R.length + digitsVal (2 ^ f) R) := by
        rw [Nat.mul_succ, Nat.pow_add, Nat.pow_mul]
        ring

theorem cbLoop_spec (frombits tobits : Nat) (hf1 : 1 ≤ frombits) (hf : frombits ≤ 8)
    (ht1 : 1 ≤ tobits) (ht : tobits ≤ 8) :
    ∀ (data : List Nat) (acc b : Nat), (∀ v ∈ data, v < 2 ^ frombits) → b < tobits →
      ∃ out accf bf, convert_bits.cbLoop frombits tobits data acc b = some (out, accf, bf) ∧
        bf < tobits ∧ (∀ d ∈ out, d < 2 ^ tobits) ∧
        tobits * out.length + bf = frombits * data.length + b ∧
        digitsVal (2 ^ tobits) out * 2 ^ bf + accf % 2 ^ bf =
          acc % 2 ^ b * 2 ^ (frombits * data.length) + digitsVal (2 ^ frombits) data := by
  intro data
  induction data with
  | nil =>
    intro acc b hv hb
    refine ⟨[], acc, b, rfl, hb, by simp, by simp, ?_⟩
    simp [digitsVal]
  | cons v rest ih =>
    intro acc b hv hb
    rw [convert_bits.cbLoop]
    have hvf : v >>> frombits = 0 := by
      rw [Nat.shiftRight_eq_div_pow]
      exact Nat.div_eq_of_lt (hv v (by simp))
    rw [if_neg (by simp [hvf])]
    dsimp only
    obtain ⟨e1, e2, e3, e4⟩ := cbEmit_spec tobits ht1 (b + frombits)
      ((acc <<< frombits ||| v) % 4294967296) (b + frombits) (le_refl _)
    have habs : ((acc <<< frombits ||| v) % 4294967296) % 2 ^ (b + frombits) =
        acc % 2 ^ b * 2 ^ frombits + v :=
      absorb_mod acc v b frombits (hv v (by simp)) (by omega)
    obtain ⟨out', accf, bf, hloop, hbf, hout, hlen, hval⟩ :=
      ih ((acc <<< frombits ||| v) % 4294967296)
        (convert_bits.cbEmit tobits (b + frombits) ((acc <<< frombits ||| v) % 4294967296)
          (b + frombits)).2
        (fun x hx => hv x (by simp [hx])) e1
    rw [hloop]
    refine ⟨(convert_bits.cbEmit tobits (b + frombits)
        ((acc <<< frombits ||| v) % 4294967296) (b + frombits)).1 ++ out', accf, bf, rfl,
      hbf, ?_, ?_, ?_⟩
    · intro d hd
      rcases List.mem_append.mp hd with hd | hd
      · exact e2 d hd
      · exact hout d hd
    · rw [List.length_cons]
      exact cbLoop_len_step tobits frombits b _ bf _ out' rest e3 hlen
    · rw [List.length_cons]
      exact cbLoop_val_step tobits frombits b _ bf _ out' rest _ accf acc v hlen hval
        (e4.trans habs)

theorem convert_bits_8_5 (h : List Nat) (hb : ∀ b ∈ h, b < 256) (hl : h.length = 20) :
    ∃ cb, convert_bits h 8 5 true = .ok cb ∧ cb.length = 32 ∧ (∀ v ∈ cb, v < 32) ∧
      digitsVal 32 cb = digitsVal 256 h := by
  obtain ⟨out, accf, bf, hloop, hbf, hout, hlen, hval⟩ :=
    cbLoop_spec 8 5 (by omega) (by omega) (by omega) (by omega) h 0 0
      (fun v hv => by have := hb v hv; omega) (by omega)
  rw [hl] at hlen hval
  have hbf0 : bf = 0 := by omega
  have hlen32 : out.length = 32 := by omega
  subst hbf0
  refine ⟨out, ?_, hlen32, fun v hv => by have := hout v hv; omega, ?_⟩
  · simp only [convert_bits, hloop]
    norm_num
  · simp only [Nat.pow_zero, Nat.mod_one, Nat.zero_mod, Nat.zero_mul, Nat.mul_one,
      Nat.add_zero, Nat.zero_add] at hval
    exact hval

theorem convert_bits_5_8 (cb : List Nat) (hv : ∀ v ∈ cb, v < 32) (hl : cb.length = 32) :
    ∃ h, convert_bits cb 5 8 false = .ok h ∧ h.length = 20 ∧ (∀ b ∈ h, b < 256) ∧
      digitsVal 256 h = digitsVal 32 cb := by
  obtain ⟨out, accf, bf, hloop, hbf, hout, hlen, hval⟩ :=
    cbLoop_spec 5 8 (by omega) (by omega) (by omega) (by omega) cb 0 0
      (fun v hv' => by have := hv v hv'; omega) (by omega)
  rw [hl] at hlen hval
  have hbf0 : bf = 0 := by omega
  have hlen20 : out.length = 20 := by omega
  subst hbf0
  have hzero : accf <<< 8 % 4294967296 &&& 255 = 0 := by
    rw [show (255 : Nat) = 2 ^ 8 - 1 from rfl, Nat.and_pow_two_sub_one_eq_mod,
      Nat.mod_mod_of_dvd _ (by norm_num : (2 : Nat) ^ 8 ∣ 4294967296), Nat.shiftLeft_eq]
    simp
  refine ⟨out, ?_, hlen20, fun b hbm => by have := hout b hbm; omega, ?_⟩
  · simp only [convert_bits, hloop]
    rw [if_neg (by simp), if_neg (by simp [hzero])]
  · simp only [Nat.pow_zero, Nat.mod_one, Nat.zero_mod, Nat.zero_mul, Nat.mul_one,
      Nat.add_zero, Nat.zero_add] at hval
    exact hval

theorem digitsVal_inj (b : Nat) (hb : 1 ≤ b) : ∀ (l1 l2 : List Nat), l1.length = l2.length →
    (∀ x ∈ l1, x < b) → (∀ x ∈ l2, x < b) → digitsVal b l1 = digitsVal b l2 → l1 = l2 := by
  intro l1
  induction l1 with
  | nil =>
    intro l2 hlen _ _ _
    cases l2 with
    | nil => rfl
    | cons d2 t2 => simp at hlen
  | cons d t ih =>
    intro l2 hlen h1 h2 hval
    cases l2 with
    | nil => simp at hlen
    | cons d2 t2 =>
      have hlt : t.length = t2.length := by simpa using hlen
      rw [digitsVal_cons, digitsVal_cons, hlt] at hval
      have hv1 : digitsVal b t < b ^ t2.length := by
        rw [← hlt]
        exact digitsVal_lt b hb t (fun x hx => h1 x (by simp [hx]))
      have hv2 : digitsVal b t2 < b ^ t2.length :=
        digitsVal_lt b hb t2 (fun x hx => h2 x (by simp [hx]))
      have hd : d = d2 := by
        by_contra hne
        rcases Nat.lt_or_ge d d2 with hlt2 | hge
        · have h3 : d * b ^ t2.length + digitsVal b t < (d + 1) * b ^ t2.length := by
            rw [Nat.succ_mul]
            omega
          have h4 : (d + 1) * b ^ t2.length ≤ d2 * b ^ t2.length :=
            Nat.mul_le_mul_right _ (by omega)
          omega
        · have hgt : d2 < d := by omega
          have h3 : d2 * b ^ t2.length + digitsVal b t2 < (d2 + 1) * b ^ t2.length := by
            rw [Nat.succ_mul]
            omega
          have h4 : (d2 + 1) * b ^ t2.length ≤ d * b ^ t2.length :=
            Nat.mul_le_mul_right _ (by omega)
          omega
      subst hd
      have hteq : digitsVal b t = digitsVal b t2 := by omega
      rw [ih t2 hlt (fun x hx => h1 x (by simp [hx])) (fun x hx => h2 x (by simp [hx])) hteq]

theorem convert_bits_roundtrip (h : List Nat) (hb : ∀ b ∈ h, b < 256) (hl : h.length = 20) :
    ∃ cb, convert_bits h 8 5 true = .ok cb ∧ cb.length = 32 ∧ (∀ v ∈ cb, v < 32) ∧
      convert_bits cb 5 8 false = .ok h := by
  obtain ⟨cb, hcb, hlen, hv, hval⟩ := convert_bits_8_5 h hb hl
  obtain ⟨h', hh', hlen', hv', hval'⟩ := convert_bits_5_8 cb hv hlen
  have heq : h' = h := by
    refine digitsVal_inj 256 (by omega) h' h ?_ hv' hb (hval'.trans hval)
    rw [hlen', hl]
  exact ⟨cb, hcb, hlen, hv, by rw [hh', heq]⟩

/-! ## C10: decoding an encoded address -/

theorem charsetChar_not_upper (v : Nat) :
    ¬(65 ≤ (bech32CharsetChar v).toNat ∧ (bech32CharsetChar v).toNat ≤ 90) := by
  by_cases h : v < 32
  · interval_cases v <;> decide
  · rw [bech32CharsetChar, List.getD_eq_getElem?_getD,
      List.getElem?_eq_none (by rw [show bech32Charset.length = 32 from rfl]; omega)]
    decide

theorem charsetChar_ne_one (v : Nat) : bech32CharsetChar v ≠ '1' := by
  by_cases h : v < 32
  · interval_cases v <;> decide
  · rw [bech32CharsetChar, List.getD_eq_getElem?_getD,
      List.getElem?_eq_none (by rw [show bech32Charset.length = 32 from rfl]; omega)]
    decide

theorem charsetRev_charsetChar (v : Nat) (h : v < 32) :
    bech32CharsetRev (bech32CharsetChar v) = some v := by
  interval_cases v <;> decide

theorem rfind1_eq_none : ∀ l : List Char, (∀ c ∈ l, c ≠ '1') → rfind1 l = none := by
  intro l
  induction l with
  | nil => intro _; rfl
  | cons c t ih =>
    intro h
    rw [rfind1, ih (fun x hx => h x (by simp [hx]))]
    simp [h c (by simp)]

theorem toU5s_map : ∀ vs : List Nat, (∀ v ∈ vs, v < 32) →
    bech32ToU5s (vs.map bech32CharsetChar) = some vs := by
  intro vs
  induction vs with
  | nil => intro _; rfl
  | cons v t ih =>
    intro h
    rw [List.map_cons, bech32ToU5s, charsetRev_charsetChar v (h v (by simp)),
      ih (fun x hx => h x (by simp [hx]))]

theorem map_lowerChar_id : ∀ l : List Char,
    (∀ c ∈ l, ¬(65 ≤ c.toNat ∧ c.toNat ≤ 90)) → l.map lowerChar = l := by
  intro l
  induction l with
  | nil => intro _; rfl
  | cons c t ih =>
    intro h
    rw [List.map_cons, ih (fun x hx => h x (by simp [hx])), lowerChar, if_neg (h c (by simp))]

theorem checksum_vals_lt (hrp : List Char) (data : List Nat) :
    ∀ x ∈ bech32_create_checksum hrp data, x < 32 := by
  intro x hx
  rw [bech32_create_checksum] at hx
  simp only [List.mem_map] at hx
  obtain ⟨i, _, hi⟩ := hx
  subst hi
  exact lt_of_le_of_lt Nat.and_le_right (by omega)

theorem bech32_decode_encode (cb : List Nat) (hv : ∀ v ∈ cb, v < 32) (hl : cb.length = 32) :
    bech32_decode (bech32_encode "bc" (0 :: cb)) = .ok ("bc", 0 :: cb, .bech32) := by
  have hpayload : ∀ v ∈ (0 :: cb) ++ bech32_create_checksum ['b', 'c'] (0 :: cb), v < 32 := by
    intro v hvm
    rcases List.mem_append.mp hvm with h | h
    · rcases List.mem_cons.mp h with h | h
      · omega
      · exact hv v h
    · exact checksum_vals_lt _ _ v h
  have hcslen : (bech32_create_checksum ['b', 'c'] (0 :: cb)).length = 6 := by
    rw [bech32_create_checksum]
    simp
  have hdata : (bech32_encode "bc" (0 :: cb)).data =
      'b' :: 'c' :: '1' ::
        (((0 :: cb) ++ bech32_create_checksum ['b', 'c'] (0 :: cb)).map bech32CharsetChar) := by
    rfl
  rw [bech32_decode, hdata]
  have hnoup : ∀ c ∈ 'b' :: 'c' :: '1' ::
      (((0 :: cb) ++ bech32_create_checksum ['b', 'c'] (0 :: cb)).map bech32CharsetChar),
      ¬(65 ≤ c.toNat ∧ c.toNat ≤ 90) := by
    intro c hc
    rcases List.mem_cons.mp hc with hc | hc
    · subst hc; decide
    · rcases List.mem_cons.mp hc with hc | hc
      · subst hc; decide
      · rcases List.mem_cons.mp hc with hc | hc
        · subst hc; decide
        · obtain ⟨v, _, hvc⟩ := List.mem_map.mp hc
          subst hvc
          exact charsetChar_not_upper v
  have hupfalse : (('b' :: 'c' :: '1' ::
      (((0 :: cb) ++ bech32_create_checksum ['b', 'c'] (0 :: cb)).map bech32CharsetChar)).any
        (fun c => decide (65 ≤ c.toNat ∧ c.toNat ≤ 90))) = false := by
    rw [List.any_eq_false]
    intro x hx
    simp only [decide_eq_true_eq]
    exact hnoup x hx
  rw [hupfalse, Bool.false_and, if_neg (by simp)]
  rw [map_lowerChar_id _ hnoup]
  have hrest1 : rfind1
      (((0 :: cb) ++ bech32_create_checksum ['b', 'c'] (0 :: cb)).map bech32CharsetChar) =
      none := by
    apply rfind1_eq_none
    intro c hc
    obtain ⟨v, _, hvc⟩ := List.mem_map.mp hc
    subst hvc
    exact charsetChar_ne_one v
  have hr2 : rfind1 ('1' ::
      (((0 :: cb) ++ bech32_create_checksum ['b', 'c'] (0 :: cb)).map bech32CharsetChar)) =
      some 0 := by
    rw [rfind1, hrest1]
    rfl
  have hr3 : rfind1 ('c' :: '1' ::
      (((0 :: cb) ++ bech32_create_checksum ['b', 'c'] (0 :: cb)).map bech32CharsetChar)) =
      some 1 := by
    rw [rfind1, hr2]
  have hr4 : rfind1 ('b' :: 'c' :: '1' ::
      (((0 :: cb) ++ bech32_create_checksum ['b', 'c'] (0 :: cb)).map bech32CharsetChar)) =
      some 2 := by
    rw [rfind1, hr3]
  dsimp only
  rw [hr4]
  dsimp only
  have hlenmap :
      (((0 :: cb) ++ bech32_create_checksum ['b', 'c'] (0 :: cb)).map bech32CharsetChar).length =
      39 := by
    rw [List.length_map, List.length_append, List.length_cons, hl, hcslen]
  rw [if_neg (by simp), if_neg (by
    rw [show List.take 2 ('b' :: 'c' :: '1' ::
        (((0 :: cb) ++ bech32_create_checksum ['b', 'c'] (0 :: cb)).map bech32CharsetChar)) =
        ['b', 'c'] from rfl]
    decide)]
  rw [if_neg (by rw [List.drop_succ_cons, List.drop_succ_cons, List.drop_succ_cons,
    List.drop_zero, hlenmap]; omega)]
  rw [show List.drop 3 ('b' :: 'c' :: '1' ::
      (((0 :: cb) ++ bech32_create_checksum ['b', 'c'] (0 :: cb)).map bech32CharsetChar)) =
      (((0 :: cb) ++ bech32_create_checksum ['b', 'c'] (0 :: cb)).map bech32CharsetChar)
    from rfl]
  rw [toU5s_map _ hpayload]
  dsimp only
  have hcheck : bech32_polymod (bech32_hrp_expand_l (List.take 2 ('b' :: 'c' :: '1' ::
      (((0 :: cb) ++ bech32_create_checksum ['b', 'c'] (0 :: cb)).map bech32CharsetChar))) ++
      ((0 :: cb) ++ bech32_create_checksum ['b', 'c'] (0 :: cb))) = 1 := by
    rw [show List.take 2 ('b' :: 'c' :: '1' ::
        (((0 :: cb) ++ bech32_create_checksum ['b', 'c'] (0 :: cb)).map bech32CharsetChar)) =
        ['b', 'c'] from rfl]
    apply bech32_checksum_verifies ['b', 'c'] (0 :: cb)
    intro v hvm
    rcases List.mem_append.mp hvm with h | h
    · exact (by decide : ∀ x ∈ bech32_hrp_expand_l ['b', 'c'], x < 32) v h
    · rcases List.mem_cons.mp h with h | h
      · omega
      · exact hv v h
  rw [if_pos hcheck]
  have htake : List.take
      (((0 :: cb) ++ bech32_create_checksum ['b', 'c'] (0 :: cb)).length - 6)
      ((0 :: cb) ++ bech32_create_checksum ['b', 'c'] (0 :: cb)) = 0 :: cb := by
    rw [List.length_append, List.length_cons, hl, hcslen]
    exact List.take_left' (by rw [List.length_cons, hl])
  rw [htake]
  rfl

theorem decode_bech32_encode (cb : List Nat) (hv : ∀ v ∈ cb, v < 32) (hl : cb.length = 32)
    (h : List Nat) (hcv : convert_bits cb 5 8 false = .ok h) (h20 : h.length = 20) :
    decode_bech32_pubkey_hash (bech32_encode "bc" (0 :: cb)) = .ok h := by
  rw [decode_bech32_pubkey_hash, bech32_decode_encode cb hv hl]
  dsimp only
  rw [if_neg (by simp), if_neg (by simp), if_neg (by simp), if_neg (by simp)]
  rw [show List.drop 1 (0 :: cb) = cb from rfl, hcv]
  dsimp only
  rw [if_neg (by omega)]

theorem extract_p2wpkh_encode (h cb : List Nat) (h20 : h.length = 20)
    (hcv : convert_bits h 8 5 true = .ok cb) :
    extract_p2wpkh_address (0x00 :: 0x14 :: h) = .ok (bech32_encode "bc" (0 :: cb)) := by
  rw [extract_p2wpkh_address]
  rw [if_neg (by simp [h20])]
  rw [show List.drop 2 (0x00 :: 0x14 :: h) = h from rfl]
  rw [List.take_of_length_le (by omega), hcv]

theorem encode_starts_bc1 (cb : List Nat) :
    startsWithS (bech32_encode "bc" (0 :: cb)) "bc1" = true := by
  simp [startsWithS, bech32_encode, List.isPrefixOf]

/-- C10: bech32 payment matching compares only decoded pubkey hashes, ignoring
the network prefix. A `tb1` target that decodes to witness version 0 and a
20-byte hash is matched by a P2WPKH output, even though `extract_p2wpkh_address`
re-encodes every P2WPKH script with mainnet hrp `bc`: the output's `bc1...`
address and the `tb1...` target decode to the same hash, so the output's value
is counted. -/
theorem c10_bech32_matching_ignores_network (target : String) (h : List Nat) (v : Nat)
    (hb : ∀ b ∈ h, b < 256) (h20 : h.length = 20) (hv : v < 18446744073709551616)
    (htb : startsWithS target "tb1" = true)
    (hdec : decode_bech32_pubkey_hash target = .ok h) :
    ∃ address, extract_p2wpkh_address (0x00 :: 0x14 :: h) = .ok address ∧
      startsWithS address "bc1" = true ∧
      sum_outputs_to_target [(address, v)] target = .ok v := by
  obtain ⟨cb, hcb, hlen, hvv, hrt⟩ := convert_bits_roundtrip h hb h20
  refine ⟨bech32_encode "bc" (0 :: cb), extract_p2wpkh_encode h cb h20 hcb,
    encode_starts_bc1 cb, ?_⟩
  rw [sum_outputs_to_target, htb]
  simp only [Bool.or_true, if_true]
  rw [hdec]
  dsimp only
  rw [sumLoopBech, decode_bech32_encode cb hvv hlen h hrt h20]
  dsimp only
  rw [if_pos rfl]
  rw [checkedAdd, if_pos (by omega)]
  dsimp only
  rw [sumLoopBech]
  simp

theorem c10_witness : ∃ address,
    extract_p2wpkh_address (0x00 :: 0x14 ::
      [0x75, 0x1e, 0x76, 0xe8, 0x19, 0x91, 0x96, 0xd4, 0x54, 0x94,
       0x1c, 0x45, 0xd1, 0xb3, 0xa3, 0x23, 0xf1, 0x43, 0x3b, 0xd6]) = .ok address ∧
    startsWithS address "bc1" = true ∧
    sum_outputs_to_target [(address, 3)]
      "tb1qw508d6qejxtdg4y5r3zarvary0c5xw7kxpjzsx" = .ok 3 :=
  c10_bech32_matching_ignores_network "tb1qw508d6qejxtdg4y5r3zarvary0c5xw7kxpjzsx"
    [0x75, 0x1e, 0x76, 0xe8, 0x19, 0x91, 0x96, 0xd4, 0x54, 0x94,
     0x1c, 0x45, 0xd1, 0xb3, 0xa3, 0x23, 0xf1, 0x43, 0x3b, 0xd6] 3
    (by decide) (by decide) (by decide) (by decide) (by decide)
